import Mathlib

/-!
# Verification of the primini product-description scraping pipeline

Shallow embedding of `backend/primini_backend/products/management/commands/
scrape_product_descriptions.py` (the `scrape_product_descriptions` Django
management command) and proofs about it.

Modelling conventions:
* Python strings are Lean `String`s; most text processing is defined on
  `List Char` and wrapped.  Whitespace is modelled as the ASCII whitespace
  set (space, tab, newline, carriage return, vertical tab, form feed),
  matching Python's `\s` / `str.strip()` on ASCII text.
* Regex substitutions (`re.sub`) are modelled by equivalent single-pass
  scanners; the relevant patterns (`\s+`, `\s*[•·]\s*`, `\s*-\s*-\s*`)
  contain no constructs beyond greedy character-class repetition, so the
  leftmost-match/continue-after-match semantics is captured exactly.
* HTML documents are modelled as the multiset of their elements (tag,
  class attribute, direct string content); the CSS selectors used by the
  code (`div[class*="product"]` etc.) and the `find(..., class_=regex)`
  calls only inspect tag names and attribute/text substrings, so no tree
  structure is needed.
* Network and database effects are modelled by explicit state passing: a
  work item carries the outcome its URL fetch would produce, the catalog
  is an association list from product id to description, and Django's
  `transaction.atomic` is modelled by restoring the entry state when the
  body propagates an error.
-/

namespace Primini

/-- ASCII whitespace, as matched by Python's `\s` and `str.strip()`
on ASCII text (source uses `re.sub(r'\s+', ...)` and `.strip()`). -/
def isPySpace (c : Char) : Bool :=
  c = ' ' || c = '\t' || c = '\n' || c = '\r' || c = '\x0b' || c = '\x0c'

/-- The bullet characters removed by `clean_description`
(`re.sub(r'\s*[•·]\s*', ' ', description)`, source line 1081). -/
def isBullet (c : Char) : Bool :=
  c = '•' || c = '·'

/-- Scanner for `re.sub(r'\s+', ' ', s)` (source line 1078): every maximal
run of whitespace is replaced by a single space.  `prevWs` records whether
the previous character belonged to a whitespace run already emitted. -/
def collapseWsAux : Bool → List Char → List Char
  | _, [] => []
  | prevWs, c :: cs =>
    if isPySpace c then
      if prevWs then collapseWsAux true cs
      else ' ' :: collapseWsAux true cs
    else c :: collapseWsAux false cs

def collapseWs (s : List Char) : List Char :=
  collapseWsAux false s

/-- Scanner for `re.sub(r'\s*[•·]\s*', ' ', s)` (source line 1081).
A match is a maximal whitespace run, one bullet, and the following maximal
whitespace run; matches are found left to right and replaced by one space.
`pend` buffers (reversed) whitespace that may become a match's leading
`\s*`; `skipping` is true while consuming a match's trailing `\s*`. -/
def bulletSubAux : List Char → Bool → List Char → List Char
  | pend, skipping, [] => if skipping then [] else pend.reverse
  | pend, skipping, c :: cs =>
    if skipping then
      if isPySpace c then bulletSubAux [] true cs
      else if isBullet c then ' ' :: bulletSubAux [] true cs
      else c :: bulletSubAux [] false cs
    else
      if isPySpace c then bulletSubAux (c :: pend) false cs
      else if isBullet c then ' ' :: bulletSubAux [] true cs
      else pend.reverse ++ c :: bulletSubAux [] false cs

def bulletSub (s : List Char) : List Char :=
  bulletSubAux [] false s

/-- Scanner state for the dash-pair substitution. -/
inductive DashState where
  | normal (pend : List Char)
  | sawDash (pend mid : List Char)
  | skipWs
  deriving DecidableEq

/-- Scanner for `re.sub(r'\s*-\s*-\s*', ' ', s)` (source line 1082).
A match is a maximal whitespace run, a dash, a whitespace run, a second
dash and the trailing maximal whitespace run; matches are found left to
right and replaced by one space.  In `sawDash pend mid`, `pend` is the
(reversed) whitespace before the first dash and `mid` the (reversed)
whitespace after it. -/
def dashSubAux : DashState → List Char → List Char
  | .normal pend, [] => pend.reverse
  | .sawDash pend mid, [] => pend.reverse ++ '-' :: mid.reverse
  | .skipWs, [] => []
  | .normal pend, c :: cs =>
    if isPySpace c then dashSubAux (.normal (c :: pend)) cs
    else if c = '-' then dashSubAux (.sawDash pend []) cs
    else pend.reverse ++ c :: dashSubAux (.normal []) cs
  | .sawDash pend mid, c :: cs =>
    if isPySpace c then dashSubAux (.sawDash pend (c :: mid)) cs
    else if c = '-' then ' ' :: dashSubAux .skipWs cs
    else pend.reverse ++ '-' :: mid.reverse ++ c :: dashSubAux (.normal []) cs
  | .skipWs, c :: cs =>
    if isPySpace c then dashSubAux .skipWs cs
    else if c = '-' then dashSubAux (.sawDash [] []) cs
    else c :: dashSubAux (.normal []) cs

def dashSub (s : List Char) : List Char :=
  dashSubAux (.normal []) s

/-- Python `str.split('\n')`: on the empty string it yields `[""]`. -/
def splitNl : List Char → List (List Char)
  | [] => [[]]
  | c :: cs =>
    if c = '\n' then [] :: splitNl cs
    else
      match splitNl cs with
      | l :: ls => (c :: l) :: ls
      | [] => [[c]]

/-- Python `str.strip()` restricted to ASCII whitespace: drop trailing
whitespace (implemented structurally so that proofs avoid `reverse`). -/
def dropTrailingWs : List Char → List Char
  | [] => []
  | c :: cs =>
    if dropTrailingWs cs = [] && isPySpace c then [] else c :: dropTrailingWs cs

/-- Python `str.strip()` restricted to ASCII whitespace. -/
def pyStrip (s : List Char) : List Char :=
  dropTrailingWs (s.dropWhile isPySpace)

/-- Python `' '.join` over the kept lines. -/
def joinSpace : List (List Char) → List Char
  | [] => []
  | [l] => l
  | l :: ls => l ++ ' ' :: joinSpace ls

/-- Source lines 1085-1087: split on newlines, keep the stripped lines of
stripped length `> 20`, join with single spaces. -/
def lineFilter (s : List Char) : List Char :=
  joinSpace (((splitNl s).map pyStrip).filter fun l => 20 < l.length)

/-- Source lines 1090-1091: texts longer than 2000 characters are cut to
their first 1997 characters followed by `'...'`. -/
def truncate2000 (s : List Char) : List Char :=
  if 2000 < s.length then s.take 1997 ++ ['.', '.', '.'] else s

/-- Embedding of `Command.clean_description` (source lines 1070-1093): whitespace
collapse, bullet removal, double-dash removal, short-line filter,
truncation, final strip.  The `if not description` guard maps the empty
string (and `None`) to `''`. -/
def clean_description (s : String) : String :=
  if s = "" then ""
  else ⟨pyStrip (truncate2000 (lineFilter (dashSub (bulletSub (collapseWs s.data)))))⟩

/-- The list `needle` is a prefix of `hay`. -/
def listStartsWith : List Char → List Char → Bool
  | [], _ => true
  | _ :: _, [] => false
  | a :: as, b :: bs => a = b && listStartsWith as bs

/-- The list `needle` occurs contiguously inside `hay`. -/
def listHasSub (needle : List Char) : List Char → Bool
  | [] => listStartsWith needle []
  | c :: cs => listStartsWith needle (c :: cs) || listHasSub needle cs

/-- Substring test on strings (Python's `in` operator / `re.search` with a
literal alternative). -/
def strContains (hay needle : String) : Bool :=
  listHasSub needle.data hay.data

/-- Python `str.lower()` (ASCII case folding) as a character list. -/
def lowerChars (s : String) : List Char :=
  s.data.map Char.toLower

/-- Python `str.upper()` (ASCII case folding) as a character list. -/
def upperChars (s : String) : List Char :=
  s.data.map Char.toUpper

/-- Python `str.startswith`. -/
def strStartsWith (s pre : String) : Bool :=
  listStartsWith pre.data s.data

/-- An HTML element as far as the command's selectors look at it: tag name,
full `class` attribute and direct string content.  A parsed page is the
list of its elements; the selectors used by the code inspect only tag and
attribute/text substrings, so the tree structure is irrelevant. -/
structure HtmlElement where
  tag : String
  classAttr : String
  text : String
  deriving DecidableEq

/-- Selector `div[class*="product"]` (source line 754). -/
def selDivProduct (e : HtmlElement) : Bool :=
  e.tag = "div" && strContains e.classAttr "product"

/-- Selector `article[class*="product"]` (source line 755). -/
def selArticleProduct (e : HtmlElement) : Bool :=
  e.tag = "article" && strContains e.classAttr "product"

/-- Selector `div[class*="item"]` (source line 756). -/
def selDivItem (e : HtmlElement) : Bool :=
  e.tag = "div" && strContains e.classAttr "item"

/-- Selector `div[class*="card"]` (source line 757). -/
def selDivCard (e : HtmlElement) : Bool :=
  e.tag = "div" && strContains e.classAttr "card"

/-- Count of the elements
matched by the four product-indicator selectors of
`Command._is_product_listing_page` (source lines 753-763).  Elements
matching several selectors are counted once per selector, as in the
source's `product_count += len(indicators)`. -/
def productIndicatorCount (els : List HtmlElement) : Nat :=
  (els.filter selDivProduct).length + (els.filter selArticleProduct).length
    + (els.filter selDivItem).length + (els.filter selDivCard).length

/-- Model of `soup.find('div', class_=re.compile(r'search|results|listing', re.I))`
and `soup.find('h1', string=re.compile(r'results|trouvé|produits', re.I))`
(source lines 768-771); case-insensitive regex alternation over literals is
substring search on the lowercased text. -/
def searchIndicator (els : List HtmlElement) : Bool :=
  (els.any fun e => e.tag = "div" &&
      (listHasSub "search".data (lowerChars e.classAttr)
        || listHasSub "results".data (lowerChars e.classAttr)
        || listHasSub "listing".data (lowerChars e.classAttr)))
    || (els.any fun e => e.tag = "h1" &&
      (listHasSub "results".data (lowerChars e.text)
        || listHasSub "trouvé".data (lowerChars e.text)
        || listHasSub "produits".data (lowerChars e.text)))

/-- Embedding of `Command._is_product_listing_page` (source lines 747-776): more than 5
product-indicator elements, or any search-results indicator, classifies
the page as a listing.  (The source returns `True` as soon as the running
count exceeds 5, which is equivalent to comparing the total.) -/
def is_product_listing_page (els : List HtmlElement) : Bool :=
  if 5 < productIndicatorCount els then true else searchIndicator els

/-- A fetched page: parsed markup plus the lowercased netloc of the
requested URL (source lines 664-669). -/
structure FetchedPage where
  elements : List HtmlElement
  domain : String

/-- Acceptance test applied to each strategy's raw result (source lines
702-719): Python truthiness of the string and `len(description.strip())
>= 50`. -/
def strategyAccepts (d : String) : Bool :=
  d ≠ "" && 50 ≤ (pyStrip d.data).length

/-- The LLM branch of `scrape_description`: `result = _extract_with_llm(...)`,
returned with the given method name when truthy (source lines 681-685 and
722-726). -/
def llmBranch (llmExtract : FetchedPage → Option String) (method : String)
    (page : FetchedPage) : Option (String × String) :=
  match llmExtract page with
  | some r => if r ≠ "" then some (r, method) else none
  | none => none

/-- The domain dispatch of `scrape_description` (source lines 690-705):
the four site-specific strategies are passed in as functions, since every
claim below holds for every strategy body. -/
def siteStrategyResult (scrapeIris scrapePrimini scrapeBiougnach scrapeJumia :
    FetchedPage → Option String) (page : FetchedPage) : Option String × String :=
  if strContains page.domain "iris.ma" then (scrapeIris page, "iris_ma_specific")
  else if strContains page.domain "primini.ma" then (scrapePrimini page, "primini_ma_specific")
  else if strContains page.domain "biougnach.ma" then (scrapeBiougnach page, "biougnach_ma_specific")
  else if strContains page.domain "jumia.ma" || strContains page.domain "jumia.com" then
    (scrapeJumia page, "jumia_specific")
  else (none, "")

/-- Embedding of `Command.scrape_description` after a successful fetch and parse
(source lines 674-732).  Listing pages go straight to the LLM branch (or
`None`); otherwise the site-specific strategy for the domain, then the
generic fallback, then the LLM fallback are tried in order, each accepted
only when its stripped result has at least 50 characters.  The strategy
bodies (`_scrape_iris_ma`, ..., `_scrape_generic`) are parameters: the
dispatch skeleton is what the claims are about, and the theorems hold for
all strategy bodies. -/
def scrape_description (scrapeIris scrapePrimini scrapeBiougnach scrapeJumia
    scrapeGeneric llmExtract : FetchedPage → Option String)
    (useLlm llmClient : Bool) (page : FetchedPage) : Option (String × String) :=
  if is_product_listing_page page.elements then
    if useLlm && llmClient then llmBranch llmExtract "llm_listing_page" page
    else none
  else
    let site := siteStrategyResult scrapeIris scrapePrimini scrapeBiougnach scrapeJumia page
    match site.1 with
    | some d =>
      if strategyAccepts d then some (d, site.2)
      else
        match scrapeGeneric page with
        | some g =>
          if strategyAccepts g then some (g, "generic_fallback")
          else if useLlm && llmClient then llmBranch llmExtract "llm_fallback" page
          else none
        | none =>
          if useLlm && llmClient then llmBranch llmExtract "llm_fallback" page
          else none
    | none =>
      match scrapeGeneric page with
      | some g =>
        if strategyAccepts g then some (g, "generic_fallback")
        else if useLlm && llmClient then llmBranch llmExtract "llm_fallback" page
        else none
      | none =>
        if useLlm && llmClient then llmBranch llmExtract "llm_fallback" page
        else none

/-- Outcome of the `llm_client.chat.completions.create` call inside
`Command._extract_with_llm`: either the response message content, or any
exception raised during HTML preparation or the API call. -/
inductive LlmCallResult where
  | success (content : String)
  | failure (errorMessage : String)
  deriving DecidableEq

/-- Embedding of `Command._extract_with_llm` (source lines 969-1068): strip the
response, map the `NOT_FOUND` sentinel and sub-50-character responses to
`None`, and swallow every exception into `None` (source lines 1061-1068).
The function never raises, so an LLM failure can never become a
work-item-level failure. -/
def extract_with_llm (call : LlmCallResult) : Option String :=
  match call with
  | .failure _ => none
  | .success content =>
    let description : List Char := pyStrip content.data
    if upperChars ⟨description⟩ = "NOT_FOUND".data
        || listStartsWith "NOT_FOUND".data (upperChars ⟨description⟩) then none
    else if description.length < 50 then none
    else some ⟨description⟩

/-- What `extract_image_urls` sees on a page: the (absolutized) Open-Graph
image URL, the strategy-2 selector hits in document order, and the
strategy-3 first large non-icon main-content image.  URL absolutization
(`urljoin`) is abstracted: candidates are given already resolved, and the
source's `startswith('http')` guards are kept. -/
structure ImagePageInfo where
  ogImage : Option String
  selectorImages : List String
  mainContentImage : Option String

/-- Embedding of `Command.extract_image_urls` (source lines 1095-1167): Open-Graph
image first, then deduplicated selector images, then — only if nothing was
found — the main-content image; at most 3 URLs are returned
(`return image_urls[:3]`, line 1167). -/
def extract_image_urls (info : ImagePageInfo) : List String :=
  let s1 : List String :=
    match info.ogImage with
    | some u => if strStartsWith u "http" then [u] else []
    | none => []
  let s2 : List String :=
    info.selectorImages.foldl
      (fun acc u => if strStartsWith u "http" && !(acc.contains u) then acc ++ [u] else acc) s1
  let s3 : List String :=
    if s2 = [] then
      match info.mainContentImage with
      | some u => if strStartsWith u "http" then [u] else []
      | none => []
    else s2
  s3.take 3

/-- One image candidate as the download loop of
`Command.download_product_image` observes it: whether the GET succeeded,
the `content-type` header, the declared `content-length` header and the
actual body size in bytes. -/
structure ImageCandidate where
  url : String
  fetchOk : Bool
  contentType : String
  contentLength : Option Nat
  bodySize : Nat
  deriving DecidableEq

/-- The acceptance test of the download loop (source lines 1205-1235): the
request must succeed, the content type must start with `image/`, and both
the declared and the actual size must not exceed the cap.  The source
compares `size / (1024*1024) > max_image_size_mb` in real arithmetic,
which for a cap of `m` MB is exactly `size > m * 1048576` bytes. -/
def acceptImage (maxImageSizeMb : Nat) (c : ImageCandidate) : Bool :=
  c.fetchOk
    && listStartsWith "image/".data (lowerChars c.contentType)
    && (match c.contentLength with
        | some n => decide (n ≤ maxImageSizeMb * 1048576)
        | none => true)
    && decide (c.bodySize ≤ maxImageSizeMb * 1048576)

/-- The candidate loop of `Command.download_product_image` (source lines
1195-1290): try the extracted URLs in order; any rejected or failing
candidate falls through to the next (`continue`), and the first accepted
candidate is saved and returned. -/
def tryDownloadImages (maxImageSizeMb : Nat) : List ImageCandidate → Option ImageCandidate
  | [] => none
  | c :: rest =>
    if acceptImage maxImageSizeMb c then some c
    else tryDownloadImages maxImageSizeMb rest

/-- A catalog product as the command reads it: id, name, slug, current
description, the URL of its first offer with a non-empty URL (source line
442), and that offer's merchant name. -/
structure PyProduct where
  id : Nat
  name : String
  slug : String
  description : Option String
  offerUrl : Option String
  merchant : Option String
  deriving DecidableEq

/-- A failure-ledger entry (source lines 574-584).  The wall-clock
timestamp is omitted. -/
structure FailureRecord where
  productId : Nat
  productName : String
  productSlug : String
  url : String
  merchant : Option String
  errorType : String
  errorMessage : String
  retryCount : Nat
  deriving DecidableEq

/-- The retry information travelling with a work item loaded from a retry
JSON file (source lines 402-405, 420-422, 583). -/
structure RetryInfo where
  retryCount : Nat
  errorMessage : String
  deriving DecidableEq

/-- What the outside world does when one work item is processed: the
result of `scrape_description` for its URL (a description/method pair, no
description, or a raised exception) and — when image download is enabled —
the result of `download_product_image`, which never raises (source lines
1292-1297 catch everything and return `None`). -/
inductive ScrapeOutcome where
  | found (description : String) (method : String)
  | notFound
  | raises (errorType : String) (errorMessage : String)
  deriving DecidableEq

/-- One entry of `products_list` together with the environment's response
to it.  Items built from the catalog queryset have `url := none` and
`retryInfo := none`; the dict format (`url`/`retryInfo` set) is what the
retry path of `_process_products` would consume (source lines 400-409). -/
structure WorkItem where
  product : PyProduct
  url : Option String
  retryInfo : Option RetryInfo
  outcome : ScrapeOutcome
  imageResult : Option String
  deriving DecidableEq

/-- The `stats` dictionary (source lines 267-275). -/
structure RunStats where
  processed : Nat := 0
  updated : Nat := 0
  skipped : Nat := 0
  errors : Nat := 0
  llmUsed : Nat := 0
  imagesDownloaded : Nat := 0
  imagesFailed : Nat := 0
  deriving DecidableEq

/-- The catalog's description store: association list from product id to
description text.  `product.save(update_fields=['description'])` replaces
the stored value. -/
abbrev Catalog := List (Nat × String)

/-- A committed description write. -/
def catalogSet (db : Catalog) (id : Nat) (text : String) : Catalog :=
  match db with
  | [] => [(id, text)]
  | (i, t) :: rest =>
    if i = id then (i, text) :: rest else (i, t) :: catalogSet rest id text

/-- Run options relevant to `_process_products`. -/
structure RunConfig where
  skipExisting : Bool := false
  rollbackOnError : Bool := false
  downloadImages : Bool := false
  deriving DecidableEq

/-- State threaded through `_process_products`: catalog, stats and the
`failed_products` ledger. -/
structure RunState where
  db : Catalog
  stats : RunStats
  failed : List FailureRecord
  deriving DecidableEq

/-- The failure record appended for an erroring item (source lines
574-585): the retry count is the loaded record's count plus one when the
item came from a retry file, and `0` otherwise (line 583). -/
def mkFailureRecord (p : PyProduct) (url : String) (merchant : Option String)
    (retryInfo : Option RetryInfo) (errorType errorMessage : String) : FailureRecord :=
  { productId := p.id, productName := p.name, productSlug := p.slug, url := url,
    merchant := merchant, errorType := errorType, errorMessage := errorMessage,
    retryCount := match retryInfo with | some ri => ri.retryCount + 1 | none => 0 }

/-- The skip test of source line 430: not retrying, `--skip-existing` set,
and the product already has a description of at least 50 characters. -/
def skipExistingCheck (cfg : RunConfig) (item : WorkItem) : Bool :=
  item.retryInfo = none && cfg.skipExisting &&
    (match item.product.description with
     | some d => decide (50 ≤ d.length)
     | none => false)

/-- URL resolution of source lines 441-456: the item's own URL (retry dict
format) or the first offer's URL. -/
def resolveUrl (item : WorkItem) : Option String :=
  match item.url with
  | some u => some u
  | none => item.product.offerUrl

/-- The body of the `for` loop of `Command._process_products` for one item
(source lines 400-594).  `Except.error` is the exception re-raised at line
590 when `rollback_on_error` is set; its payload carries the state at the
moment of the raise, which the transaction will discard. -/
def processOne (cfg : RunConfig) (item : WorkItem) (st : RunState) :
    Except (String × RunState) RunState :=
  let p := item.product
  let stats1 := { st.stats with processed := st.stats.processed + 1 }
  -- line 430: skip items that already have a >= 50 character description
  if skipExistingCheck cfg item then
    .ok { st with stats := { stats1 with skipped := stats1.skipped + 1 } }
  else
    -- lines 441-456: resolve the URL from the item or the first offer
    match resolveUrl item with
    | none =>
      .ok { st with stats := { stats1 with skipped := stats1.skipped + 1 } }
    | some url =>
      match item.outcome with
      | .raises errorType errorMessage =>
        -- lines 561-594: record the failure; re-raise only in rollback mode
        let st' : RunState :=
          { st with
            stats := { stats1 with errors := stats1.errors + 1 },
            failed := st.failed ++
              [mkFailureRecord p url p.merchant item.retryInfo errorType errorMessage] }
        if cfg.rollbackOnError then
          .error ("Error processing product \"" ++ p.name ++ "\": " ++ errorMessage, st')
        else .ok st'
      | outcome =>
        -- lines 471-489: the image step runs before description handling
        -- and never raises past its try/except
        let stats2 :=
          if cfg.downloadImages then
            match item.imageResult with
            | some _ => { stats1 with imagesDownloaded := stats1.imagesDownloaded + 1 }
            | none => { stats1 with imagesFailed := stats1.imagesFailed + 1 }
          else stats1
        match outcome with
        | .found description method =>
          if description = "" then
            -- line 502: a falsy description counts as not found
            .ok { st with stats := { stats2 with skipped := stats2.skipped + 1 } }
          else
            let cleaned := clean_description description
            if 50 ≤ cleaned.length then
              let stats3 :=
                { stats2 with
                  updated := stats2.updated + 1,
                  llmUsed :=
                    if listHasSub "llm".data (lowerChars method) then stats2.llmUsed + 1
                    else stats2.llmUsed }
              .ok { st with db := catalogSet st.db p.id cleaned, stats := stats3 }
            else
              .ok { st with stats := { stats2 with skipped := stats2.skipped + 1 } }
        | _ =>
          .ok { st with stats := { stats2 with skipped := stats2.skipped + 1 } }

/-- Embedding of `Command._process_products` (source lines 388-596): fold the loop body
over the work list; an exception raised in rollback mode aborts the
remaining items. -/
def processProducts (cfg : RunConfig) : List WorkItem → RunState →
    Except (String × RunState) RunState
  | [], st => .ok st
  | item :: rest, st =>
    match processOne cfg item st with
    | .error e => .error e
    | .ok st' => processProducts cfg rest st'

/-- Result of a whole run: final catalog, stats, ledger, and the critical
error surfaced to the operator (source lines 295-304), if any. -/
structure RunResult where
  db : Catalog
  stats : RunStats
  failed : List FailureRecord
  surfacedError : Option String
  deriving DecidableEq

/-- The transaction part of `Command.handle` (source lines 280-313).  In
rollback mode the items run inside `transaction.atomic()`: when the body
propagates an exception every write of the run is discarded (the catalog
reverts to its entry state), the error is reported and `stats['errors']`
is incremented once more (line 304) on top of the increment already done
inside `_process_products` (line 571).  In per-item mode writes are
committed as they happen. -/
def handleRun (cfg : RunConfig) (items : List WorkItem) (db0 : Catalog) : RunResult :=
  let st0 : RunState := { db := db0, stats := {}, failed := [] }
  if cfg.rollbackOnError then
    match processProducts cfg items st0 with
    | .ok st => { db := st.db, stats := st.stats, failed := st.failed, surfacedError := none }
    | .error (msg, st) =>
      { db := db0,
        stats := { st.stats with errors := st.stats.errors + 1 },
        failed := st.failed,
        surfacedError := some msg }
  else
    match processProducts cfg items st0 with
    | .ok st => { db := st.db, stats := st.stats, failed := st.failed, surfacedError := none }
    | .error (msg, st) =>
      { db := st.db, stats := st.stats, failed := st.failed, surfacedError := some msg }

/-- Work-list selection in `Command.handle` (source lines 171-184 and
238-257).  The retry JSON file is opened, parsed and logged (lines
176-181), but the work list is then built from `Product.objects.all()`
with the `skip_existing` filter and the `limit` slice regardless: the
loaded ledger records are never consulted. -/
def select_products (allProducts : List PyProduct) (skipExisting : Bool)
    (limit : Option Nat) (retryLedger : Option (List FailureRecord)) : List PyProduct :=
  match retryLedger with
  | _ =>
    let q :=
      if skipExisting then
        allProducts.filter fun p =>
          match p.description with
          | none => true
          | some d => d = "" || d.length < 50
      else allProducts
    match limit with
    | some n => q.take n
    | none => q

/-! ## Verification predicates -/

/-- An element matched by at least one of the four product-indicator
selectors of `_is_product_listing_page`. -/
def productIndicatorMatch (e : HtmlElement) : Bool :=
  selDivProduct e || selArticleProduct e || selDivItem e || selDivCard e

/-- The text-processing pipeline of `clean_description` before the
line filter: whitespace collapse, bullet removal, dash-pair removal. -/
def preClean (s : String) : List Char :=
  dashSub (bulletSub (collapseWs s.data))

/-- Whether the list contains two dashes separated only by whitespace
(the pattern removed by `re.sub(r'\s*-\s*-\s*', ' ', s)`).  The flag
records that a dash with only whitespace after it has been seen. -/
def hasDashPairAux : Bool → List Char → Bool
  | _, [] => false
  | afterDash, c :: cs =>
    if c = '-' then (if afterDash then true else hasDashPairAux true cs)
    else if isPySpace c then hasDashPairAux afterDash cs
    else hasDashPairAux false cs

def hasDashPair (l : List Char) : Bool :=
  hasDashPairAux false l

/-- No two adjacent whitespace characters. -/
def noWsRun : List Char → Bool
  | [] => true
  | [_] => true
  | a :: b :: t => (!(isPySpace a && isPySpace b)) && noWsRun (b :: t)

/-- Every whitespace character is a plain space (in particular there is no
newline). -/
def spacesPlain (l : List Char) : Prop :=
  ∀ c ∈ l, isPySpace c = true → c = ' '

/-- No bullet characters. -/
def noBullets (l : List Char) : Prop :=
  ∀ c ∈ l, isBullet c = false

instance (l : List Char) : Decidable (spacesPlain l) :=
  inferInstanceAs (Decidable (∀ c ∈ l, isPySpace c = true → c = ' '))

instance (l : List Char) : Decidable (noBullets l) :=
  inferInstanceAs (Decidable (∀ c ∈ l, isBullet c = false))

/-- The characters buffered in a dash-scanner state. -/
def dashBuf : DashState → List Char
  | .normal pend => pend
  | .sawDash pend mid => pend ++ mid
  | .skipWs => []

/-! ## Page classifier -/

theorem length_filter_or_le {α : Type} (p q : α → Bool) (l : List α) :
    (l.filter fun x => p x || q x).length ≤ (l.filter p).length + (l.filter q).length := by
  induction l with
  | nil => simp
  | cons a t ih =>
    by_cases hp : p a = true <;> by_cases hq : q a = true <;>
      simp [List.filter_cons, hp, hq] <;> omega

theorem filter_length_le_productIndicatorCount (els : List HtmlElement) :
    (els.filter productIndicatorMatch).length ≤ productIndicatorCount els := by
  have h1 := length_filter_or_le
    (fun e => selDivProduct e || selArticleProduct e || selDivItem e) selDivCard els
  have h2 := length_filter_or_le
    (fun e => selDivProduct e || selArticleProduct e) selDivItem els
  have h3 := length_filter_or_le selDivProduct selArticleProduct els
  have e3 : (els.filter fun e => selDivProduct e || selArticleProduct e).length
      ≤ (els.filter selDivProduct).length + (els.filter selArticleProduct).length := by
    simpa using h3
  simp only [productIndicatorMatch, productIndicatorCount]
  calc (els.filter fun e => selDivProduct e || selArticleProduct e || selDivItem e
          || selDivCard e).length
      ≤ (els.filter fun e => selDivProduct e || selArticleProduct e || selDivItem e).length
          + (els.filter selDivCard).length := h1
    _ ≤ ((els.filter fun e => selDivProduct e || selArticleProduct e).length
          + (els.filter selDivItem).length) + (els.filter selDivCard).length := by
        have := h2; omega
    _ ≤ (els.filter selDivProduct).length + (els.filter selArticleProduct).length
          + (els.filter selDivItem).length + (els.filter selDivCard).length := by
        omega

/-- C7: the page classifier returns "listing" whenever the page contains
more than 5 elements whose tag and class match one of the product/item/
card indicator selectors; in particular a page of 8 `div.product-card`
elements is classified as a listing (see the witness). -/
theorem c7_listing_when_many_product_indicators (els : List HtmlElement)
    (h : 5 < (els.filter productIndicatorMatch).length) :
    is_product_listing_page els = true := by
  have hc : 5 < productIndicatorCount els :=
    lt_of_lt_of_le h (filter_length_le_productIndicatorCount els)
  simp [is_product_listing_page, hc]

/-- Witness for C7: 8 repeated `div.product-card` elements exceed the
threshold and are classified as a listing. -/
theorem c7_witness :
    5 < ((List.replicate 8 (⟨"div", "product-card", ""⟩ : HtmlElement)).filter
        productIndicatorMatch).length ∧
      is_product_listing_page
        (List.replicate 8 (⟨"div", "product-card", ""⟩ : HtmlElement)) = true :=
  ⟨by decide, c7_listing_when_many_product_indicators _ (by decide)⟩

/-! ## Image download -/

/-- C9: a candidate whose declared content-length exceeds the cap, whose
actual body exceeds the cap, or whose content-type is not an image MIME
type, is rejected and the loop moves to the next candidate; and
`extract_image_urls` yields at most 3 candidates. -/
theorem c9_oversized_or_nonimage_candidate_skipped (c : ImageCandidate)
    (rest : List ImageCandidate) (maxMb n : Nat) (info : ImagePageInfo) :
    (c.contentLength = some n → maxMb * 1048576 < n →
        tryDownloadImages maxMb (c :: rest) = tryDownloadImages maxMb rest) ∧
      (listStartsWith "image/".data (lowerChars c.contentType) = false →
        tryDownloadImages maxMb (c :: rest) = tryDownloadImages maxMb rest) ∧
      (maxMb * 1048576 < c.bodySize →
        tryDownloadImages maxMb (c :: rest) = tryDownloadImages maxMb rest) ∧
      (extract_image_urls info).length ≤ 3 := by
  refine ⟨?_, ?_, ?_, ?_⟩
  · intro hcl hn
    have hrej : acceptImage maxMb c = false := by
      simp [acceptImage, hcl, Nat.not_le.mpr hn]
    simp [tryDownloadImages, hrej]
  · intro hct
    have hrej : acceptImage maxMb c = false := by
      simp [acceptImage, hct]
    simp [tryDownloadImages, hrej]
  · intro hb
    have hrej : acceptImage maxMb c = false := by
      simp [acceptImage, Nat.not_le.mpr hb]
    simp [tryDownloadImages, hrej]
  · simp only [extract_image_urls]
    exact List.length_take_le 3 _

/-- Witness for C9: a candidate declaring `content-length: 6000000` under
a 5 MB cap is rejected and the following candidate is downloaded. -/
theorem c9_witness :
    ((⟨"http://m.example/big.jpg", true, "image/jpeg", some 6000000, 6000000⟩ :
          ImageCandidate).contentLength = some 6000000 ∧
        5 * 1048576 < 6000000) ∧
      tryDownloadImages 5
          [⟨"http://m.example/big.jpg", true, "image/jpeg", some 6000000, 6000000⟩,
            ⟨"http://m.example/ok.jpg", true, "image/jpeg", some 200000, 200000⟩] =
        tryDownloadImages 5
          [(⟨"http://m.example/ok.jpg", true, "image/jpeg", some 200000, 200000⟩ :
            ImageCandidate)] ∧
      tryDownloadImages 5
          [(⟨"http://m.example/ok.jpg", true, "image/jpeg", some 200000, 200000⟩ :
            ImageCandidate)] =
        some ⟨"http://m.example/ok.jpg", true, "image/jpeg", some 200000, 200000⟩ :=
  ⟨⟨rfl, by decide⟩,
    (c9_oversized_or_nonimage_candidate_skipped _ _ 5 6000000 ⟨none, [], none⟩).1 rfl
      (by decide),
    by decide⟩

/-! ## Language-model fallback -/

/-- C6: the LLM fallback maps a transport/service failure, the `NOT_FOUND`
sentinel and any response shorter than 50 characters to `None` (no
description found); being a total function into `Option`, it never raises
a work-item-level failure. -/
theorem c6_llm_failure_modes_give_none (msg content : String) :
    extract_with_llm (.failure msg) = none ∧
      (listStartsWith "NOT_FOUND".data (upperChars ⟨pyStrip content.data⟩) = true →
        extract_with_llm (.success content) = none) ∧
      ((pyStrip content.data).length < 50 →
        extract_with_llm (.success content) = none) := by
  refine ⟨rfl, ?_, ?_⟩
  · intro hs
    simp [extract_with_llm, hs]
  · intro hlen
    by_cases hs : (upperChars ⟨pyStrip content.data⟩ = "NOT_FOUND".data
        || listStartsWith "NOT_FOUND".data (upperChars ⟨pyStrip content.data⟩)) = true
    · simp [extract_with_llm, hs]
    · simp only [extract_with_llm]
      rw [if_neg (by simpa using hs), if_pos hlen]

/-- Witness for C6: a failed call, a `NOT_FOUND` response and a short
response all yield `None`. -/
theorem c6_witness :
    extract_with_llm (.failure "connection reset by peer") = none ∧
      (listStartsWith "NOT_FOUND".data (upperChars ⟨pyStrip "NOT_FOUND".data⟩) = true ∧
        extract_with_llm (.success "NOT_FOUND") = none) ∧
      ((pyStrip "too short".data).length < 50 ∧
        extract_with_llm (.success "too short") = none) :=
  ⟨(c6_llm_failure_modes_give_none "connection reset by peer" "NOT_FOUND").1,
    ⟨by decide, (c6_llm_failure_modes_give_none "x" "NOT_FOUND").2.1 (by decide)⟩,
    ⟨by decide, (c6_llm_failure_modes_give_none "x" "too short").2.2 (by decide)⟩⟩

/-! ## Listing pages and the strategy chain -/

/-- C4: on a page classified as a listing, the site-specific strategies
and the generic fallback are never invoked — the result does not depend on
them and equals the LLM-only branch — and if the LLM fallback is disabled
the result is `None` (no description found). -/
theorem c4_listing_page_skips_structural_strategies
    (f1 f2 f3 f4 g g1 g2 g3 g4 g' llm : FetchedPage → Option String)
    (useLlm llmClient : Bool) (page : FetchedPage)
    (h : is_product_listing_page page.elements = true) :
    scrape_description f1 f2 f3 f4 g llm useLlm llmClient page =
        scrape_description g1 g2 g3 g4 g' llm useLlm llmClient page ∧
      scrape_description f1 f2 f3 f4 g llm useLlm llmClient page =
        (if useLlm && llmClient then llmBranch llm "llm_listing_page" page else none) ∧
      (useLlm = false →
        scrape_description f1 f2 f3 f4 g llm useLlm llmClient page = none) := by
  refine ⟨?_, ?_, ?_⟩
  · simp [scrape_description, h]
  · simp [scrape_description, h]
  · intro hu
    simp [scrape_description, h, hu]

/-- Witness for C4: a page whose 6 `div.item-card` elements classify it as
a listing yields no description when the LLM is disabled, even though
every structural strategy would return a long description. -/
theorem c4_witness :
    is_product_listing_page
        (List.replicate 6 (⟨"div", "item-card", ""⟩ : HtmlElement)) = true ∧
      scrape_description
        (fun _ => some "A perfectly long candidate description of this very product here.")
        (fun _ => some "A perfectly long candidate description of this very product here.")
        (fun _ => some "A perfectly long candidate description of this very product here.")
        (fun _ => some "A perfectly long candidate description of this very product here.")
        (fun _ => some "A perfectly long candidate description of this very product here.")
        (fun _ => none) false false
        ⟨List.replicate 6 (⟨"div", "item-card", ""⟩ : HtmlElement), "shop.example"⟩ =
        none :=
  ⟨by decide,
    (c4_listing_page_skips_structural_strategies _ _ _ _ _
        (fun _ => none) (fun _ => none) (fun _ => none) (fun _ => none) (fun _ => none)
        (fun _ => none) false false _ (by decide)).2.2 rfl⟩

/-! ## Retry-from-ledger work-list selection -/

/-- C1 (supporting theorem for a code bug): the work list is independent
of the loaded retry ledger — `handle` reads the retry JSON but builds the
work list from the full product queryset — and concretely a ledger of one
record over a two-product catalog still selects both products instead of
the one recorded product. -/
theorem c1_retry_ledger_ignored (allProducts : List PyProduct) (skipExisting : Bool)
    (limit : Option Nat) (ledger : List FailureRecord) :
    select_products allProducts skipExisting limit (some ledger) =
        select_products allProducts skipExisting limit none ∧
      (select_products
          [⟨7, "TV A", "tv-a", none, some "http://m.example/a", some "M"⟩,
            ⟨8, "TV B", "tv-b", none, some "http://m.example/b", some "M"⟩]
          false none
          (some [⟨7, "TV A", "tv-a", "http://m.example/a", some "M",
            "Exception", "Request failed", 0⟩])).length = 2 := by
  exact ⟨rfl, by decide⟩

/-! ## Orchestrator: per-item behaviour -/

theorem processOne_raises_ok (cfg : RunConfig) (item : WorkItem) (st : RunState)
    (ty msg url : String)
    (hroll : cfg.rollbackOnError = false)
    (hskip : skipExistingCheck cfg item = false)
    (hurl : resolveUrl item = some url)
    (hout : item.outcome = .raises ty msg) :
    processOne cfg item st = .ok
      { db := st.db,
        stats := { st.stats with
          processed := st.stats.processed + 1,
          errors := st.stats.errors + 1 },
        failed := st.failed ++
          [mkFailureRecord item.product url item.product.merchant item.retryInfo ty msg] } := by
  simp [processOne, hskip, hurl, hout, hroll]

theorem processOne_raises_error (cfg : RunConfig) (item : WorkItem) (st : RunState)
    (ty msg url : String)
    (hroll : cfg.rollbackOnError = true)
    (hskip : skipExistingCheck cfg item = false)
    (hurl : resolveUrl item = some url)
    (hout : item.outcome = .raises ty msg) :
    processOne cfg item st = .error
      ("Error processing product \"" ++ item.product.name ++ "\": " ++ msg,
        { db := st.db,
          stats := { st.stats with
            processed := st.stats.processed + 1,
            errors := st.stats.errors + 1 },
          failed := st.failed ++
            [mkFailureRecord item.product url item.product.merchant item.retryInfo ty msg] }) := by
  simp [processOne, hskip, hurl, hout, hroll]

theorem processOne_found_accept (cfg : RunConfig) (item : WorkItem) (st : RunState)
    (d m url : String)
    (hskip : skipExistingCheck cfg item = false)
    (hurl : resolveUrl item = some url)
    (hout : item.outcome = .found d m)
    (hlen : 50 ≤ (clean_description d).length) :
    ∃ st', processOne cfg item st = .ok st' ∧
      st'.db = catalogSet st.db item.product.id (clean_description d) ∧
      st'.failed = st.failed ∧
      st'.stats.updated = st.stats.updated + 1 ∧
      st'.stats.errors = st.stats.errors ∧
      st'.stats.skipped = st.stats.skipped ∧
      st'.stats.processed = st.stats.processed + 1 := by
  have hd : ¬ d = "" := by
    intro he
    rw [he] at hlen
    simp [clean_description] at hlen
  have heq : processOne cfg item st = .ok
      { db := catalogSet st.db item.product.id (clean_description d),
        stats :=
          (let stats1 := { st.stats with processed := st.stats.processed + 1 }
          let stats2 := if cfg.downloadImages then
              (match item.imageResult with
               | some _ => { stats1 with imagesDownloaded := stats1.imagesDownloaded + 1 }
               | none => { stats1 with imagesFailed := stats1.imagesFailed + 1 })
            else stats1
          { stats2 with
            updated := stats2.updated + 1,
            llmUsed := if listHasSub "llm".data (lowerChars m) then stats2.llmUsed + 1
              else stats2.llmUsed }),
        failed := st.failed } := by
    simp only [processOne, hskip, Bool.false_eq_true, if_false, hurl, hout]
    rw [if_neg hd, if_pos hlen]
  refine ⟨_, heq, rfl, rfl, ?_, ?_, ?_, ?_⟩ <;>
    cases hdi : cfg.downloadImages <;> cases hir : item.imageResult <;> simp [hdi, hir]

theorem processOne_found_reject (cfg : RunConfig) (item : WorkItem) (st : RunState)
    (d m url : String)
    (hskip : skipExistingCheck cfg item = false)
    (hurl : resolveUrl item = some url)
    (hout : item.outcome = .found d m)
    (hlen : (clean_description d).length < 50) :
    ∃ st', processOne cfg item st = .ok st' ∧
      st'.db = st.db ∧
      st'.failed = st.failed ∧
      st'.stats.updated = st.stats.updated ∧
      st'.stats.errors = st.stats.errors ∧
      st'.stats.skipped = st.stats.skipped + 1 ∧
      st'.stats.processed = st.stats.processed + 1 := by
  have heq : processOne cfg item st = .ok
      { db := st.db,
        stats :=
          (let stats1 := { st.stats with processed := st.stats.processed + 1 }
          let stats2 := if cfg.downloadImages then
              (match item.imageResult with
               | some _ => { stats1 with imagesDownloaded := stats1.imagesDownloaded + 1 }
               | none => { stats1 with imagesFailed := stats1.imagesFailed + 1 })
            else stats1
          { stats2 with skipped := stats2.skipped + 1 }),
        failed := st.failed } := by
    by_cases hd : d = ""
    · simp only [processOne, hskip, Bool.false_eq_true, if_false, hurl, hout]
      rw [if_pos hd]
    · simp only [processOne, hskip, Bool.false_eq_true, if_false, hurl, hout]
      rw [if_neg hd, if_neg (Nat.not_le.mpr hlen)]
  refine ⟨_, heq, rfl, rfl, ?_, ?_, ?_, ?_⟩ <;>
    cases hdi : cfg.downloadImages <;> cases hir : item.imageResult <;> simp [hdi, hir]

/-- C2: in all-or-nothing mode, when processing the work list raises an
error, the run's final catalog is exactly the catalog at run start — every
write made before the failing item is rolled back — and the triggering
error message is surfaced to the operator. -/
theorem c2_rollback_discards_all_writes (cfg : RunConfig) (items : List WorkItem)
    (db0 : Catalog) (msg : String) (st' : RunState)
    (hroll : cfg.rollbackOnError = true)
    (herr : processProducts cfg items ⟨db0, {}, []⟩ = .error (msg, st')) :
    (handleRun cfg items db0).db = db0 ∧
      (handleRun cfg items db0).surfacedError = some msg := by
  simp [handleRun, hroll, herr]

/-- C8: in per-item mode, an error on one work item is recorded (failure
entry appended, error counter incremented), leaves the catalog untouched,
and the next item is still processed and — on success — persisted; the
remaining items then continue from that state. -/
theorem c8_per_item_failure_isolated (cfg : RunConfig) (x y : WorkItem)
    (rest : List WorkItem) (st : RunState) (ty msg ux uy d m : String)
    (hroll : cfg.rollbackOnError = false)
    (hxskip : skipExistingCheck cfg x = false)
    (hxurl : resolveUrl x = some ux)
    (hxout : x.outcome = .raises ty msg)
    (hyskip : skipExistingCheck cfg y = false)
    (hyurl : resolveUrl y = some uy)
    (hyout : y.outcome = .found d m)
    (hylen : 50 ≤ (clean_description d).length) :
    ∃ st2, processProducts cfg (x :: y :: rest) st = processProducts cfg rest st2 ∧
      st2.db = catalogSet st.db y.product.id (clean_description d) ∧
      st2.stats.errors = st.stats.errors + 1 ∧
      st2.stats.updated = st.stats.updated + 1 ∧
      st2.failed = st.failed ++
        [mkFailureRecord x.product ux x.product.merchant x.retryInfo ty msg] := by
  have hx := processOne_raises_ok cfg x st ty msg ux hroll hxskip hxurl hxout
  set st1 : RunState :=
    { db := st.db,
      stats := { st.stats with
        processed := st.stats.processed + 1,
        errors := st.stats.errors + 1 },
      failed := st.failed ++
        [mkFailureRecord x.product ux x.product.merchant x.retryInfo ty msg] } with hst1
  obtain ⟨st2, hy, hdb, hfail, hupd, herr2, _, _⟩ :=
    processOne_found_accept cfg y st1 d m uy hyskip hyurl hyout hylen
  refine ⟨st2, ?_, ?_, ?_, ?_, ?_⟩
  · show processProducts cfg (x :: y :: rest) st = _
    simp only [processProducts, hx, hy]
  · simpa [hst1] using hdb
  · simp [herr2, hst1]
  · simp [hupd, hst1]
  · simp [hfail, hst1]

set_option maxRecDepth 8000 in
/-- Witness for C2: the first item's successful write (visible in per-item
mode) is rolled back when the second item raises in all-or-nothing mode,
and an error is surfaced. -/
theorem c2_witness :
    (∃ msg,
        (handleRun { rollbackOnError := true }
            [⟨⟨1, "Laptop A", "laptop-a", none, some "http://m.example/a", some "M"⟩, none,
                none,
                .found
                  "A fine sixty character description of this laptop, well made."
                  "generic_fallback", none⟩,
              ⟨⟨2, "Laptop B", "laptop-b", none, some "http://m.example/b", some "M"⟩, none,
                none, .raises "Exception" "Request failed: timeout", none⟩]
            []).surfacedError = some msg) ∧
      (handleRun { rollbackOnError := true }
          [⟨⟨1, "Laptop A", "laptop-a", none, some "http://m.example/a", some "M"⟩, none,
              none,
              .found
                "A fine sixty character description of this laptop, well made."
                "generic_fallback", none⟩,
            ⟨⟨2, "Laptop B", "laptop-b", none, some "http://m.example/b", some "M"⟩, none,
              none, .raises "Exception" "Request failed: timeout", none⟩]
          []).db = [] ∧
      (handleRun { rollbackOnError := false }
          [⟨⟨1, "Laptop A", "laptop-a", none, some "http://m.example/a", some "M"⟩, none,
              none,
              .found
                "A fine sixty character description of this laptop, well made."
                "generic_fallback", none⟩,
            ⟨⟨2, "Laptop B", "laptop-b", none, some "http://m.example/b", some "M"⟩, none,
              none, .raises "Exception" "Request failed: timeout", none⟩]
          []).db =
        [(1, "A fine sixty character description of this laptop, well made.")] := by
  have herr : processProducts { rollbackOnError := true }
      [⟨⟨1, "Laptop A", "laptop-a", none, some "http://m.example/a", some "M"⟩, none, none,
          .found "A fine sixty character description of this laptop, well made."
            "generic_fallback", none⟩,
        ⟨⟨2, "Laptop B", "laptop-b", none, some "http://m.example/b", some "M"⟩, none,
          none, .raises "Exception" "Request failed: timeout", none⟩]
      ⟨[], {}, []⟩ =
      .error ("Error processing product \"Laptop B\": Request failed: timeout",
        ⟨[(1, "A fine sixty character description of this laptop, well made.")],
          ⟨2, 1, 0, 1, 0, 0, 0⟩,
          [⟨2, "Laptop B", "laptop-b", "http://m.example/b", some "M",
            "Exception", "Request failed: timeout", 0⟩]⟩) := by rfl
  refine ⟨⟨_, (c2_rollback_discards_all_writes _ _ _ _ _ rfl herr).2⟩,
    (c2_rollback_discards_all_writes _ _ _ _ _ rfl herr).1, ?_⟩
  decide

set_option maxRecDepth 8000 in
/-- Witness for C8: a run whose first item raises still processes the
second item and persists its description. -/
theorem c8_witness :
    ∃ st2,
      processProducts { rollbackOnError := false }
          [⟨⟨3, "Phone A", "phone-a", none, some "http://m.example/pa", some "M"⟩, none,
              none, .raises "Exception" "Request failed: refused", none⟩,
            ⟨⟨4, "Phone B", "phone-b", none, some "http://m.example/pb", some "M"⟩, none,
              none,
              .found
                "Another sixty character description, for the second phone here."
                "generic_fallback", none⟩]
          ⟨[], {}, []⟩ =
        processProducts { rollbackOnError := false } [] st2 ∧
      st2.db = catalogSet []
        (4 : Nat)
        (clean_description
          "Another sixty character description, for the second phone here.") ∧
      st2.stats.errors = (0 : Nat) + 1 ∧
      st2.stats.updated = (0 : Nat) + 1 ∧
      st2.failed = [] ++
        [mkFailureRecord
          ⟨3, "Phone A", "phone-a", none, some "http://m.example/pa", some "M"⟩
          "http://m.example/pa" (some "M") none "Exception" "Request failed: refused"] :=
  c8_per_item_failure_isolated _ _ _ [] _ _ _ _ _ _ _ rfl rfl rfl rfl rfl rfl rfl
    (by decide)

/-! ## Normalizer bounds and acceptance -/

theorem dropTrailingWs_length_le (l : List Char) :
    (dropTrailingWs l).length ≤ l.length := by
  induction l with
  | nil => simp [dropTrailingWs]
  | cons c cs ih =>
    simp only [dropTrailingWs]
    split
    · simp
    · simpa using ih

theorem length_dropWhile_ws_le (l : List Char) :
    (l.dropWhile isPySpace).length ≤ l.length := by
  induction l with
  | nil => simp
  | cons c cs ih =>
    by_cases h : isPySpace c = true
    · simp only [List.dropWhile_cons, h, if_true, List.length_cons]
      omega
    · simp [List.dropWhile_cons, h]

theorem pyStrip_length_le (l : List Char) : (pyStrip l).length ≤ l.length :=
  le_trans (dropTrailingWs_length_le _) (length_dropWhile_ws_le l)

theorem truncate2000_length_le (l : List Char) : (truncate2000 l).length ≤ 2000 := by
  unfold truncate2000
  split
  · rename_i h
    simp only [List.length_append, List.length_take, List.length_cons, List.length_nil]
    omega
  · rename_i h
    omega

theorem clean_description_length_le (s : String) :
    (clean_description s).length ≤ 2000 := by
  unfold clean_description
  split
  · simp
  · show (pyStrip (truncate2000 _)).length ≤ 2000
    exact le_trans (pyStrip_length_le _) (truncate2000_length_le _)

/-- C3: for every accepted extraction result the written text is the
cleaned text, whose length is between 50 and 2000 characters; a result
whose cleaned length is below 50 is recorded as skipped — never as an
update and never as an error. -/
theorem c3_accepted_description_bounds (cfg : RunConfig) (item : WorkItem)
    (st : RunState) (d m url : String)
    (hskip : skipExistingCheck cfg item = false)
    (hurl : resolveUrl item = some url)
    (hout : item.outcome = .found d m) :
    (clean_description d).length ≤ 2000 ∧
      (50 ≤ (clean_description d).length →
        ∃ st', processOne cfg item st = .ok st' ∧
          st'.db = catalogSet st.db item.product.id (clean_description d) ∧
          st'.stats.updated = st.stats.updated + 1) ∧
      ((clean_description d).length < 50 →
        ∃ st', processOne cfg item st = .ok st' ∧
          st'.db = st.db ∧
          st'.stats.skipped = st.stats.skipped + 1 ∧
          st'.stats.updated = st.stats.updated ∧
          st'.stats.errors = st.stats.errors ∧
          st'.failed = st.failed) := by
  refine ⟨clean_description_length_le d, ?_, ?_⟩
  · intro hlen
    obtain ⟨st', h1, h2, _, h4, _, _, _⟩ :=
      processOne_found_accept cfg item st d m url hskip hurl hout hlen
    exact ⟨st', h1, h2, h4⟩
  · intro hlen
    obtain ⟨st', h1, h2, h3, h4, h5, h6, _⟩ :=
      processOne_found_reject cfg item st d m url hskip hurl hout hlen
    exact ⟨st', h1, h2, h6, h4, h5, h3⟩

set_option maxRecDepth 8000 in
/-- Witness for C3: a 67-character extraction is accepted and written
verbatim after cleaning; a 10-character extraction is skipped with no
write, no update and no error. -/
theorem c3_witness :
    (clean_description
        "This description is long enough to pass the fifty character check.").length
        ≤ 2000 ∧
      (∃ st', processOne {}
            ⟨⟨5, "Tablet A", "tablet-a", none, some "http://m.example/t", some "M"⟩, none,
              none,
              .found "This description is long enough to pass the fifty character check."
                "generic_fallback", none⟩
            ⟨[], {}, []⟩ = .ok st' ∧
          st'.db = [(5,
            "This description is long enough to pass the fifty character check.")] ∧
          st'.stats.updated = 1) ∧
      (∃ st', processOne {}
            ⟨⟨6, "Tablet B", "tablet-b", none, some "http://m.example/u", some "M"⟩, none,
              none, .found "Too short." "generic_fallback", none⟩
            ⟨[], {}, []⟩ = .ok st' ∧
          st'.db = [] ∧
          st'.stats.skipped = 1 ∧
          st'.stats.updated = 0 ∧
          st'.stats.errors = 0 ∧
          st'.failed = []) := by
  refine ⟨(c3_accepted_description_bounds {}
      ⟨⟨5, "Tablet A", "tablet-a", none, some "http://m.example/t", some "M"⟩, none, none,
        .found "This description is long enough to pass the fifty character check."
          "generic_fallback", none⟩
      ⟨[], {}, []⟩
      "This description is long enough to pass the fifty character check."
      "generic_fallback" "http://m.example/t" rfl rfl rfl).1, ?_, ?_⟩
  · obtain ⟨st', h1, h2, h3⟩ := (c3_accepted_description_bounds {}
      ⟨⟨5, "Tablet A", "tablet-a", none, some "http://m.example/t", some "M"⟩, none, none,
        .found "This description is long enough to pass the fifty character check."
          "generic_fallback", none⟩
      ⟨[], {}, []⟩
      "This description is long enough to pass the fifty character check."
      "generic_fallback" "http://m.example/t" rfl rfl rfl).2.1 (by decide)
    refine ⟨st', h1, ?_, h3⟩
    rw [h2]
    decide
  · obtain ⟨st', h1, h2, h3, h4, h5, h6⟩ := (c3_accepted_description_bounds {}
      ⟨⟨6, "Tablet B", "tablet-b", none, some "http://m.example/u", some "M"⟩, none, none,
        .found "Too short." "generic_fallback", none⟩
      ⟨[], {}, []⟩ "Too short." "generic_fallback" "http://m.example/u" rfl rfl rfl).2.2
      (by decide)
    exact ⟨st', h1, h2, h3, h4, h5, h6⟩

/-! ## Normalizer theory: whitespace collapse -/

theorem not_bullet_of_ws {c : Char} (h : isPySpace c = true) : isBullet c = false := by
  simp only [isPySpace, Bool.or_eq_true, decide_eq_true_eq] at h
  rcases h with ((((h | h) | h) | h) | h) | h <;> subst h <;> rfl

theorem mem_collapseWsAux {c : Char} :
    ∀ (l : List Char) (b : Bool), c ∈ collapseWsAux b l → c ∈ l ∨ c = ' '
  | [], b => by simp [collapseWsAux]
  | a :: t, b => by
    intro h
    simp only [collapseWsAux] at h
    by_cases ha : isPySpace a = true
    · rw [if_pos ha] at h
      cases b with
      | true =>
        simp only [if_pos] at h
        rcases mem_collapseWsAux t true h with h' | h'
        · exact .inl (List.mem_cons_of_mem a h')
        · exact .inr h'
      | false =>
        simp only [Bool.false_eq_true, if_false] at h
        rcases List.mem_cons.mp h with h' | h'
        · exact .inr h'
        · rcases mem_collapseWsAux t true h' with h'' | h''
          · exact .inl (List.mem_cons_of_mem a h'')
          · exact .inr h''
    · rw [if_neg ha] at h
      rcases List.mem_cons.mp h with h' | h'
      · exact .inl (h' ▸ List.mem_cons_self a t)
      · rcases mem_collapseWsAux t false h' with h'' | h''
        · exact .inl (List.mem_cons_of_mem a h'')
        · exact .inr h''

theorem spacesPlain_collapseWsAux (l : List Char) (b : Bool) :
    spacesPlain (collapseWsAux b l) := by
  induction l generalizing b with
  | nil => intro c hc; simp [collapseWsAux] at hc
  | cons a t ih =>
    intro c hc hws
    simp only [collapseWsAux] at hc
    by_cases ha : isPySpace a = true
    · rw [if_pos ha] at hc
      cases b with
      | true => exact ih true c hc hws
      | false =>
        simp only [Bool.false_eq_true, if_false] at hc
        rcases List.mem_cons.mp hc with h' | h'
        · exact h'
        · exact ih true c h' hws
    · rw [if_neg ha] at hc
      rcases List.mem_cons.mp hc with h' | h'
      · exact absurd (h' ▸ hws) (by simp [ha])
      · exact ih false c h' hws

theorem noWsRun_cons_of {a : Char} {l : List Char} (hl : noWsRun l = true)
    (hh : ∀ b t, l = b :: t → (isPySpace a = false ∨ isPySpace b = false)) :
    noWsRun (a :: l) = true := by
  cases l with
  | nil => rfl
  | cons b t =>
    simp only [noWsRun, Bool.and_eq_true, Bool.not_eq_true']
    refine ⟨?_, hl⟩
    rcases hh b t rfl with h | h <;> simp [h]

theorem noWsRun_of_cons {a : Char} {l : List Char} (h : noWsRun (a :: l) = true) :
    noWsRun l = true := by
  cases l with
  | nil => rfl
  | cons b t =>
    simp only [noWsRun, Bool.and_eq_true] at h
    exact h.2

theorem collapseWsAux_noWsRun (l : List Char) :
    noWsRun (collapseWsAux false l) = true ∧ noWsRun (collapseWsAux true l) = true ∧
      (∀ c cs', collapseWsAux true l = c :: cs' → isPySpace c = false) := by
  induction l with
  | nil => exact ⟨rfl, rfl, by intro c cs' h; simp [collapseWsAux] at h⟩
  | cons a t ih =>
    obtain ⟨ih1, ih2, ih3⟩ := ih
    by_cases ha : isPySpace a = true
    · refine ⟨?_, ?_, ?_⟩
      · show noWsRun (collapseWsAux false (a :: t)) = true
        simp only [collapseWsAux, if_pos ha, Bool.false_eq_true, if_false]
        refine noWsRun_cons_of ih2 ?_
        intro b bt hb
        exact .inr (ih3 b bt hb)
      · show noWsRun (collapseWsAux true (a :: t)) = true
        simp only [collapseWsAux, if_pos ha, if_pos]
        exact ih2
      · intro c cs' h
        simp only [collapseWsAux, if_pos ha, if_pos] at h
        exact ih3 c cs' h
    · have ha' : isPySpace a = false := by simpa using ha
      refine ⟨?_, ?_, ?_⟩
      · show noWsRun (collapseWsAux false (a :: t)) = true
        simp only [collapseWsAux, if_neg ha]
        exact noWsRun_cons_of ih1 fun b bt hb => .inl ha'
      · show noWsRun (collapseWsAux true (a :: t)) = true
        simp only [collapseWsAux, if_neg ha]
        exact noWsRun_cons_of ih1 fun b bt hb => .inl ha'
      · intro c cs' h
        simp only [collapseWsAux, if_neg ha, List.cons.injEq] at h
        exact h.1 ▸ ha'

theorem spacesPlain_collapseWs (s : List Char) : spacesPlain (collapseWs s) :=
  spacesPlain_collapseWsAux s false

theorem noWsRun_collapseWs (s : List Char) : noWsRun (collapseWs s) = true :=
  (collapseWsAux_noWsRun s).1

theorem collapseWsAux_eq_self (l : List Char) (hp : spacesPlain l)
    (hr : noWsRun l = true) :
    collapseWsAux false l = l ∧
      ((∀ b t, l = b :: t → isPySpace b = false) → collapseWsAux true l = l) := by
  induction l with
  | nil => exact ⟨rfl, fun _ => rfl⟩
  | cons a t ih =>
    have hpt : spacesPlain t := fun c hc => hp c (List.mem_cons_of_mem a hc)
    have hrt : noWsRun t = true := noWsRun_of_cons hr
    obtain ⟨ih1, ih2⟩ := ih hpt hrt
    by_cases ha : isPySpace a = true
    · have haSp : a = ' ' := hp a (List.mem_cons_self a t) ha
      have hthead : ∀ b bt, t = b :: bt → isPySpace b = false := by
        intro b bt hb
        subst hb
        simp only [noWsRun, Bool.and_eq_true, Bool.not_eq_true', Bool.and_eq_false_iff] at hr
        rcases hr.1 with h | h
        · exact absurd ha (by simp [h])
        · exact h
      constructor
      · show collapseWsAux false (a :: t) = a :: t
        simp only [collapseWsAux, if_pos ha, Bool.false_eq_true, if_false]
        rw [ih2 hthead, haSp]
      · intro hhead
        exact absurd ha (by simp [hhead a t rfl])
    · constructor
      · show collapseWsAux false (a :: t) = a :: t
        simp only [collapseWsAux, if_neg ha]
        rw [ih1]
      · intro _
        show collapseWsAux true (a :: t) = a :: t
        simp only [collapseWsAux, if_neg ha]
        rw [ih1]

theorem collapseWs_eq_self (l : List Char) (hp : spacesPlain l)
    (hr : noWsRun l = true) : collapseWs l = l :=
  (collapseWsAux_eq_self l hp hr).1

/-! ## Normalizer theory: bullet substitution -/

theorem bulletSubAux_eq_self (l : List Char) (hb : noBullets l) :
    ∀ pend, bulletSubAux pend false l = pend.reverse ++ l := by
  induction l with
  | nil => intro pend; simp [bulletSubAux]
  | cons a t ih =>
    intro pend
    have hbt : noBullets t := fun c hc => hb c (List.mem_cons_of_mem a hc)
    have hba : isBullet a = false := hb a (List.mem_cons_self a t)
    by_cases ha : isPySpace a = true
    · show bulletSubAux pend false (a :: t) = pend.reverse ++ a :: t
      simp only [bulletSubAux, Bool.false_eq_true, if_false, if_pos ha]
      rw [ih hbt (a :: pend)]
      simp
    · show bulletSubAux pend false (a :: t) = pend.reverse ++ a :: t
      simp only [bulletSubAux, Bool.false_eq_true, if_false, if_neg ha, hba]
      rw [ih hbt []]
      simp

theorem bulletSub_eq_self (l : List Char) (hb : noBullets l) : bulletSub l = l := by
  simpa using bulletSubAux_eq_self l hb []

theorem noBullets_bulletSubAux (l : List Char) :
    ∀ (pend : List Char) (sk : Bool), (∀ c ∈ pend, isPySpace c = true) →
      noBullets (bulletSubAux pend sk l) := by
  induction l with
  | nil =>
    intro pend sk hpend c hc
    simp only [bulletSubAux] at hc
    cases sk with
    | true => simp at hc
    | false =>
      simp only [Bool.false_eq_true, if_false] at hc
      exact not_bullet_of_ws (hpend c (List.mem_reverse.mp hc))
  | cons a t ih =>
    intro pend sk hpend c hc
    by_cases ha : isPySpace a = true
    · cases sk with
      | true =>
        simp only [bulletSubAux, if_pos, if_pos ha] at hc
        exact ih [] true (by simp) c hc
      | false =>
        simp only [bulletSubAux, Bool.false_eq_true, if_false, if_pos ha] at hc
        refine ih (a :: pend) false ?_ c hc
        intro d hd
        rcases List.mem_cons.mp hd with h' | h'
        · exact h' ▸ ha
        · exact hpend d h'
    · by_cases hab : isBullet a = true
      · cases sk with
        | true =>
          simp only [bulletSubAux, if_pos, if_neg ha, if_pos hab] at hc
          rcases List.mem_cons.mp hc with h' | h'
          · subst h'; rfl
          · exact ih [] true (by simp) c h'
        | false =>
          simp only [bulletSubAux, Bool.false_eq_true, if_false, if_neg ha,
            if_pos hab] at hc
          rcases List.mem_cons.mp hc with h' | h'
          · subst h'; rfl
          · exact ih [] true (by simp) c h'
      · have hab' : isBullet a = false := by simpa using hab
        cases sk with
        | true =>
          simp only [bulletSubAux, if_pos, if_neg ha, hab', Bool.false_eq_true,
            if_false] at hc
          rcases List.mem_cons.mp hc with h' | h'
          · exact h' ▸ hab'
          · exact ih [] false (by simp) c h'
        | false =>
          simp only [bulletSubAux, Bool.false_eq_true, if_false, if_neg ha, hab'] at hc
          rcases List.mem_append.mp hc with h' | h'
          · exact not_bullet_of_ws (hpend c (List.mem_reverse.mp h'))
          · rcases List.mem_cons.mp h' with h'' | h''
            · exact h'' ▸ hab'
            · exact ih [] false (by simp) c h''

theorem noBullets_bulletSub (l : List Char) : noBullets (bulletSub l) :=
  noBullets_bulletSubAux l [] false (by simp)

theorem spacesPlain_bulletSubAux (l : List Char) (hp : spacesPlain l) :
    ∀ (pend : List Char) (sk : Bool), (∀ c ∈ pend, c = ' ') →
      spacesPlain (bulletSubAux pend sk l) := by
  induction l with
  | nil =>
    intro pend sk hpend c hc hws
    simp only [bulletSubAux] at hc
    cases sk with
    | true => simp at hc
    | false =>
      simp only [Bool.false_eq_true, if_false] at hc
      exact hpend c (List.mem_reverse.mp hc)
  | cons a t ih =>
    intro pend sk hpend c hc hws
    have hpt : spacesPlain t := fun d hd => hp d (List.mem_cons_of_mem a hd)
    by_cases ha : isPySpace a = true
    · have haSp : a = ' ' := hp a (List.mem_cons_self a t) ha
      cases sk with
      | true =>
        simp only [bulletSubAux, if_pos, if_pos ha] at hc
        exact ih hpt [] true (by simp) c hc hws
      | false =>
        simp only [bulletSubAux, Bool.false_eq_true, if_false, if_pos ha] at hc
        refine ih hpt (a :: pend) false ?_ c hc hws
        intro d hd
        rcases List.mem_cons.mp hd with h' | h'
        · exact h' ▸ haSp
        · exact hpend d h'
    · by_cases hab : isBullet a = true
      · have hgoal : ∀ d, d ∈ (' ' :: bulletSubAux [] true t) → isPySpace d = true →
            d = ' ' := by
          intro d hd hdws
          rcases List.mem_cons.mp hd with h' | h'
          · exact h'
          · exact ih hpt [] true (by simp) d h' hdws
        cases sk with
        | true =>
          simp only [bulletSubAux, if_pos, if_neg ha, if_pos hab] at hc
          exact hgoal c hc hws
        | false =>
          simp only [bulletSubAux, Bool.false_eq_true, if_false, if_neg ha,
            if_pos hab] at hc
          exact hgoal c hc hws
      · have hab' : isBullet a = false := by simpa using hab
        cases sk with
        | true =>
          simp only [bulletSubAux, if_pos, if_neg ha, hab', Bool.false_eq_true,
            if_false] at hc
          rcases List.mem_cons.mp hc with h' | h'
          · exact absurd (h' ▸ hws) (by simp [ha])
          · exact ih hpt [] false (by simp) c h' hws
        | false =>
          simp only [bulletSubAux, Bool.false_eq_true, if_false, if_neg ha, hab'] at hc
          rcases List.mem_append.mp hc with h' | h'
          · exact hpend c (List.mem_reverse.mp h')
          · rcases List.mem_cons.mp h' with h'' | h''
            · exact absurd (h'' ▸ hws) (by simp [ha])
            · exact ih hpt [] false (by simp) c h'' hws

theorem spacesPlain_bulletSub (l : List Char) (hp : spacesPlain l) :
    spacesPlain (bulletSub l) :=
  spacesPlain_bulletSubAux l hp [] false (by simp)

/-! ## Normalizer theory: dash substitution -/

theorem not_dash_of_ws {c : Char} (h : isPySpace c = true) : ¬ c = '-' := by
  simp only [isPySpace, Bool.or_eq_true, decide_eq_true_eq] at h
  rcases h with ((((h | h) | h) | h) | h) | h <;> subst h <;> decide

theorem mem_dashSubAux {c : Char} :
    ∀ (l : List Char) (st : DashState), c ∈ dashSubAux st l →
      c ∈ l ∨ c = ' ' ∨ c = '-' ∨ c ∈ dashBuf st
  | [], st => by
    cases st with
    | normal pend =>
      intro h
      simp only [dashSubAux, List.mem_reverse] at h
      exact .inr (.inr (.inr h))
    | sawDash pend mid =>
      intro h
      simp only [dashSubAux, List.mem_append, List.mem_cons, List.mem_reverse] at h
      rcases h with h | h | h
      · exact .inr (.inr (.inr (by simp [dashBuf, h])))
      · exact .inr (.inr (.inl h))
      · exact .inr (.inr (.inr (by simp [dashBuf, h])))
    | skipWs => intro h; simp [dashSubAux] at h
  | a :: t, st => by
    intro h
    have step : c ∈ a :: t ∨ c = ' ' ∨ c = '-' ∨ c ∈ dashBuf st → _ := id
    cases st with
    | normal pend =>
      simp only [dashSubAux] at h
      by_cases ha : isPySpace a = true
      · rw [if_pos ha] at h
        rcases mem_dashSubAux t (.normal (a :: pend)) h with h' | h' | h' | h'
        · exact .inl (List.mem_cons_of_mem a h')
        · exact .inr (.inl h')
        · exact .inr (.inr (.inl h'))
        · simp only [dashBuf, List.mem_cons] at h'
          rcases h' with h'' | h''
          · exact .inl (h'' ▸ List.mem_cons_self a t)
          · exact .inr (.inr (.inr h''))
      · rw [if_neg ha] at h
        by_cases hd : a = '-'
        · rw [if_pos hd] at h
          rcases mem_dashSubAux t (.sawDash pend []) h with h' | h' | h' | h'
          · exact .inl (List.mem_cons_of_mem a h')
          · exact .inr (.inl h')
          · exact .inr (.inr (.inl h'))
          · simp only [dashBuf, List.append_nil] at h'
            exact .inr (.inr (.inr h'))
        · rw [if_neg hd] at h
          rcases List.mem_append.mp h with h' | h'
          · exact .inr (.inr (.inr (List.mem_reverse.mp h')))
          · rcases List.mem_cons.mp h' with h'' | h''
            · exact .inl (h'' ▸ List.mem_cons_self a t)
            · rcases mem_dashSubAux t (.normal []) h'' with h3 | h3 | h3 | h3
              · exact .inl (List.mem_cons_of_mem a h3)
              · exact .inr (.inl h3)
              · exact .inr (.inr (.inl h3))
              · simp [dashBuf] at h3
    | sawDash pend mid =>
      simp only [dashSubAux] at h
      by_cases ha : isPySpace a = true
      · rw [if_pos ha] at h
        rcases mem_dashSubAux t (.sawDash pend (a :: mid)) h with h' | h' | h' | h'
        · exact .inl (List.mem_cons_of_mem a h')
        · exact .inr (.inl h')
        · exact .inr (.inr (.inl h'))
        · simp only [dashBuf, List.mem_append, List.mem_cons] at h'
          rcases h' with h'' | h'' | h''
          · exact .inr (.inr (.inr (by simp [dashBuf, h''])))
          · exact .inl (h'' ▸ List.mem_cons_self a t)
          · exact .inr (.inr (.inr (by simp [dashBuf, h''])))
      · rw [if_neg ha] at h
        by_cases hd : a = '-'
        · rw [if_pos hd] at h
          rcases List.mem_cons.mp h with h' | h'
          · exact .inr (.inl h')
          · rcases mem_dashSubAux t .skipWs h' with h3 | h3 | h3 | h3
            · exact .inl (List.mem_cons_of_mem a h3)
            · exact .inr (.inl h3)
            · exact .inr (.inr (.inl h3))
            · simp [dashBuf] at h3
        · rw [if_neg hd] at h
          rcases List.mem_append.mp h with h' | h'
          · rcases List.mem_append.mp h' with h2 | h2
            · exact .inr (.inr (.inr (by
                simp only [dashBuf, List.mem_append]
                exact .inl (List.mem_reverse.mp h2))))
            · rcases List.mem_cons.mp h2 with h3 | h3
              · exact .inr (.inr (.inl h3))
              · exact .inr (.inr (.inr (by
                  simp only [dashBuf, List.mem_append]
                  exact .inr (List.mem_reverse.mp h3))))
          · rcases List.mem_cons.mp h' with h'' | h''
            · exact .inl (h'' ▸ List.mem_cons_self a t)
            · rcases mem_dashSubAux t (.normal []) h'' with h5 | h5 | h5 | h5
              · exact .inl (List.mem_cons_of_mem a h5)
              · exact .inr (.inl h5)
              · exact .inr (.inr (.inl h5))
              · simp [dashBuf] at h5
    | skipWs =>
      simp only [dashSubAux] at h
      by_cases ha : isPySpace a = true
      · rw [if_pos ha] at h
        rcases mem_dashSubAux t .skipWs h with h' | h' | h' | h'
        · exact .inl (List.mem_cons_of_mem a h')
        · exact .inr (.inl h')
        · exact .inr (.inr (.inl h'))
        · simp [dashBuf] at h'
      · rw [if_neg ha] at h
        by_cases hd : a = '-'
        · rw [if_pos hd] at h
          rcases mem_dashSubAux t (.sawDash [] []) h with h' | h' | h' | h'
          · exact .inl (List.mem_cons_of_mem a h')
          · exact .inr (.inl h')
          · exact .inr (.inr (.inl h'))
          · simp [dashBuf] at h'
        · rw [if_neg hd] at h
          rcases List.mem_cons.mp h with h' | h'
          · exact .inl (h' ▸ List.mem_cons_self a t)
          · rcases mem_dashSubAux t (.normal []) h' with h3 | h3 | h3 | h3
            · exact .inl (List.mem_cons_of_mem a h3)
            · exact .inr (.inl h3)
            · exact .inr (.inr (.inl h3))
            · simp [dashBuf] at h3

theorem mem_dashSub {c : Char} (l : List Char) (h : c ∈ dashSub l) :
    c ∈ l ∨ c = ' ' ∨ c = '-' := by
  rcases mem_dashSubAux l (.normal []) h with h' | h' | h' | h'
  · exact .inl h'
  · exact .inr (.inl h')
  · exact .inr (.inr h')
  · simp [dashBuf] at h'

theorem spacesPlain_dashSub (l : List Char) (hp : spacesPlain l) :
    spacesPlain (dashSub l) := by
  intro c hc hws
  rcases mem_dashSub l hc with h | h | h
  · exact hp c h hws
  · exact h
  · exact absurd (h ▸ hws) (by decide)

theorem noBullets_dashSub (l : List Char) (hb : noBullets l) :
    noBullets (dashSub l) := by
  intro c hc
  rcases mem_dashSub l hc with h | h | h
  · exact hb c h
  · exact h ▸ rfl
  · exact h ▸ rfl

theorem dashSubAux_eq_self (l : List Char) :
    ∀ pend mid,
      (hasDashPairAux false l = false →
        dashSubAux (.normal pend) l = pend.reverse ++ l) ∧
      (hasDashPairAux true l = false →
        dashSubAux (.sawDash pend mid) l = pend.reverse ++ '-' :: mid.reverse ++ l) := by
  induction l with
  | nil =>
    intro pend mid
    constructor
    · intro _; simp [dashSubAux]
    · intro _; simp [dashSubAux]
  | cons a t ih =>
    intro pend mid
    by_cases ha : isPySpace a = true
    · have hd : ¬ a = '-' := not_dash_of_ws ha
      constructor
      · intro hpair
        have hpair' : hasDashPairAux false t = false := by
          simpa [hasDashPairAux, hd, ha] using hpair
        show dashSubAux (.normal pend) (a :: t) = pend.reverse ++ a :: t
        simp only [dashSubAux, if_pos ha]
        rw [(ih (a :: pend) mid).1 hpair']
        simp
      · intro hpair
        have hpair' : hasDashPairAux true t = false := by
          simpa [hasDashPairAux, hd, ha] using hpair
        show dashSubAux (.sawDash pend mid) (a :: t) =
          pend.reverse ++ '-' :: mid.reverse ++ a :: t
        simp only [dashSubAux, if_pos ha]
        rw [(ih pend (a :: mid)).2 hpair']
        simp
    · by_cases hd : a = '-'
      · constructor
        · intro hpair
          have hpair' : hasDashPairAux true t = false := by
            subst hd
            simpa [hasDashPairAux] using hpair
          show dashSubAux (.normal pend) (a :: t) = pend.reverse ++ a :: t
          simp only [dashSubAux, if_neg ha, if_pos hd]
          rw [(ih pend []).2 hpair', hd]
          simp
        · intro hpair
          exfalso
          subst hd
          simp [hasDashPairAux] at hpair
      · constructor
        · intro hpair
          have hpair' : hasDashPairAux false t = false := by
            simpa [hasDashPairAux, hd, ha] using hpair
          show dashSubAux (.normal pend) (a :: t) = pend.reverse ++ a :: t
          simp only [dashSubAux, if_neg ha, if_neg hd]
          rw [(ih [] []).1 hpair']
          simp
        · intro hpair
          have hpair' : hasDashPairAux false t = false := by
            simpa [hasDashPairAux, hd, ha] using hpair
          show dashSubAux (.sawDash pend mid) (a :: t) =
            pend.reverse ++ '-' :: mid.reverse ++ a :: t
          simp only [dashSubAux, if_neg ha, if_neg hd]
          rw [(ih [] []).1 hpair']
          simp

theorem dashSub_eq_self (l : List Char) (h : hasDashPair l = false) : dashSub l = l := by
  simpa using (dashSubAux_eq_self l [] []).1 h

/-! ## Normalizer theory: dash pairs are invariant under the other stages -/

theorem hasDashPairAux_collapseWsAux (l : List Char) :
    ∀ (flag prev : Bool),
      hasDashPairAux flag (collapseWsAux prev l) = hasDashPairAux flag l := by
  induction l with
  | nil => intro flag prev; rfl
  | cons a t ih =>
    intro flag prev
    by_cases ha : isPySpace a = true
    · have hd : ¬ a = '-' := not_dash_of_ws ha
      have hrhs : hasDashPairAux flag (a :: t) = hasDashPairAux flag t := by
        simp [hasDashPairAux, hd, ha]
      rw [hrhs]
      cases prev with
      | true =>
        simp only [collapseWsAux, if_pos ha, if_pos]
        exact ih flag true
      | false =>
        simp only [collapseWsAux, if_pos ha, Bool.false_eq_true, if_false]
        have : hasDashPairAux flag (' ' :: collapseWsAux true t) =
            hasDashPairAux flag (collapseWsAux true t) := by
          have hsp : isPySpace ' ' = true := rfl
          have hnd : ¬ ' ' = '-' := by decide
          simp [hasDashPairAux, hsp, hnd]
        rw [this]
        exact ih flag true
    · simp only [collapseWsAux, if_neg ha]
      by_cases hd : a = '-'
      · subst hd
        cases flag with
        | true => simp [hasDashPairAux]
        | false =>
          simp only [hasDashPairAux, if_pos, Bool.false_eq_true, if_false]
          exact ih true false
      · have : ∀ m, hasDashPairAux flag (a :: m) = hasDashPairAux false m := by
          intro m
          simp [hasDashPairAux, hd, ha]
        rw [this, this]
        exact ih false false

theorem hasDashPair_collapseWs (l : List Char) :
    hasDashPair (collapseWs l) = hasDashPair l :=
  hasDashPairAux_collapseWsAux l false false

theorem hasDashPairAux_dropWhile_ws (l : List Char) :
    ∀ flag, hasDashPairAux flag (l.dropWhile isPySpace) = hasDashPairAux flag l := by
  induction l with
  | nil => intro flag; rfl
  | cons a t ih =>
    intro flag
    by_cases ha : isPySpace a = true
    · have hd : ¬ a = '-' := not_dash_of_ws ha
      rw [List.dropWhile_cons, if_pos ha, ih flag]
      simp [hasDashPairAux, hd, ha]
    · rw [List.dropWhile_cons, if_neg ha]

theorem hasDashPairAux_dropTrailingWs (l : List Char) :
    ∀ flag, hasDashPairAux flag l = false →
      hasDashPairAux flag (dropTrailingWs l) = false := by
  induction l with
  | nil => intro flag _; rfl
  | cons a t ih =>
    intro flag h
    simp only [dropTrailingWs]
    split
    · rfl
    · by_cases hd : a = '-'
      · subst hd
        cases flag with
        | true => simp [hasDashPairAux] at h
        | false =>
          simp only [hasDashPairAux, if_pos, Bool.false_eq_true, if_false] at h ⊢
          exact ih true h
      · by_cases ha : isPySpace a = true
        · simp only [hasDashPairAux, hd, if_neg, if_pos ha] at h ⊢
          exact ih flag h
        · simp only [hasDashPairAux, hd, if_neg, ha, Bool.false_eq_true, if_false] at h ⊢
          exact ih false h

theorem hasDashPairAux_take (l : List Char) :
    ∀ (n : Nat) (flag : Bool), hasDashPairAux flag l = false →
      hasDashPairAux flag (l.take n) = false := by
  induction l with
  | nil => intro n flag _; simp [hasDashPairAux]
  | cons a t ih =>
    intro n flag h
    cases n with
    | zero => rfl
    | succ n =>
      rw [List.take_succ_cons]
      by_cases hd : a = '-'
      · subst hd
        cases flag with
        | true => simp [hasDashPairAux] at h
        | false =>
          simp only [hasDashPairAux, if_pos, Bool.false_eq_true, if_false] at h ⊢
          exact ih n true h
      · by_cases ha : isPySpace a = true
        · simp only [hasDashPairAux, hd, if_neg, if_pos ha] at h ⊢
          exact ih n flag h
        · simp only [hasDashPairAux, hd, if_neg, ha, Bool.false_eq_true, if_false] at h ⊢
          exact ih n false h

theorem hasDashPairAux_of_no_dash (m : List Char) :
    ∀ flag, (∀ c ∈ m, ¬ c = '-') → hasDashPairAux flag m = false := by
  induction m with
  | nil => intro flag _; rfl
  | cons a t ih =>
    intro flag hm
    have ha : ¬ a = '-' := hm a (List.mem_cons_self a t)
    have ht : ∀ c ∈ t, ¬ c = '-' := fun c hc => hm c (List.mem_cons_of_mem a hc)
    by_cases hws : isPySpace a = true
    · simp only [hasDashPairAux, ha, if_neg, if_pos hws]
      exact ih flag ht
    · simp only [hasDashPairAux, ha, if_neg, hws, Bool.false_eq_true, if_false]
      exact ih false ht

theorem hasDashPairAux_append (l m : List Char) :
    ∀ flag, hasDashPairAux flag l = false → (∀ c ∈ m, ¬ c = '-') →
      hasDashPairAux flag (l ++ m) = false := by
  induction l with
  | nil => intro flag _ hm; exact hasDashPairAux_of_no_dash m flag hm
  | cons a t ih =>
    intro flag h hm
    rw [List.cons_append]
    by_cases hd : a = '-'
    · subst hd
      cases flag with
      | true => simp [hasDashPairAux] at h
      | false =>
        simp only [hasDashPairAux, if_pos, Bool.false_eq_true, if_false] at h ⊢
        exact ih true h hm
    · by_cases ha : isPySpace a = true
      · simp only [hasDashPairAux, hd, if_neg, if_pos ha] at h ⊢
        exact ih flag h hm
      · simp only [hasDashPairAux, hd, if_neg, ha, Bool.false_eq_true, if_false] at h ⊢
        exact ih false h hm

/-! ## Normalizer theory: stripping -/

theorem mem_dropTrailingWs {c : Char} :
    ∀ l : List Char, c ∈ dropTrailingWs l → c ∈ l := by
  intro l
  induction l with
  | nil => simp [dropTrailingWs]
  | cons a t ih =>
    intro h
    simp only [dropTrailingWs] at h
    split at h
    · simp at h
    · rcases List.mem_cons.mp h with h' | h'
      · exact h' ▸ List.mem_cons_self a t
      · exact List.mem_cons_of_mem a (ih h')

theorem mem_dropWhile_ws {c : Char} :
    ∀ l : List Char, c ∈ l.dropWhile isPySpace → c ∈ l := by
  intro l
  induction l with
  | nil => simp
  | cons a t ih =>
    intro h
    rw [List.dropWhile_cons] at h
    split at h
    · exact List.mem_cons_of_mem a (ih h)
    · exact h

theorem mem_pyStrip {c : Char} (l : List Char) (h : c ∈ pyStrip l) : c ∈ l :=
  mem_dropWhile_ws l (mem_dropTrailingWs _ h)

theorem dropWhile_ws_head {l : List Char} {c : Char} {r : List Char}
    (h : l.dropWhile isPySpace = c :: r) : isPySpace c = false := by
  induction l with
  | nil => simp at h
  | cons a t ih =>
    rw [List.dropWhile_cons] at h
    split at h
    · exact ih h
    · rename_i ha
      cases h
      simpa using ha

theorem dropTrailingWs_head {l : List Char} {c : Char} {r : List Char}
    (h : dropTrailingWs l = c :: r) : ∃ t, l = c :: t := by
  cases l with
  | nil => simp [dropTrailingWs] at h
  | cons a t =>
    simp only [dropTrailingWs] at h
    split at h
    · simp at h
    · injection h with h1 h2
      exact ⟨t, by rw [h1]⟩

theorem pyStrip_head {l : List Char} {c : Char} {r : List Char}
    (h : pyStrip l = c :: r) : isPySpace c = false := by
  obtain ⟨t, ht⟩ := dropTrailingWs_head h
  exact dropWhile_ws_head ht

theorem dropTrailingWs_last (l : List Char) :
    ∀ c, (dropTrailingWs l).getLast? = some c → isPySpace c = false := by
  induction l with
  | nil => intro c h; simp [dropTrailingWs] at h
  | cons a t ih =>
    intro c h
    simp only [dropTrailingWs] at h
    split at h
    · simp at h
    · rename_i hcond
      cases hdt : dropTrailingWs t with
      | nil =>
        rw [hdt] at h
        simp only [List.getLast?_singleton, Option.some.injEq] at h
        subst h
        simp [hdt] at hcond
        simpa using hcond
      | cons b bt =>
        rw [hdt] at h
        rw [List.getLast?_cons_cons] at h
        exact ih c (hdt ▸ h)

theorem dropWhile_ws_eq_self (l : List Char)
    (h : ∀ c r, l = c :: r → isPySpace c = false) : l.dropWhile isPySpace = l := by
  cases l with
  | nil => rfl
  | cons a t => rw [List.dropWhile_cons, if_neg (by simp [h a t rfl])]

theorem dropTrailingWs_eq_self (l : List Char)
    (h : ∀ c, l.getLast? = some c → isPySpace c = false) : dropTrailingWs l = l := by
  induction l with
  | nil => rfl
  | cons a t ih =>
    cases t with
    | nil =>
      have ha : isPySpace a = false := h a rfl
      simp [dropTrailingWs, ha]
    | cons b bt =>
      have ht : dropTrailingWs (b :: bt) = b :: bt := by
        refine ih ?_
        intro c hc
        exact h c (by rw [List.getLast?_cons_cons]; exact hc)
      show (if dropTrailingWs (b :: bt) = [] && isPySpace a then []
        else a :: dropTrailingWs (b :: bt)) = a :: b :: bt
      rw [ht]
      simp

theorem pyStrip_eq_self (l : List Char)
    (hhead : ∀ c r, l = c :: r → isPySpace c = false)
    (hlast : ∀ c, l.getLast? = some c → isPySpace c = false) : pyStrip l = l := by
  unfold pyStrip
  rw [dropWhile_ws_eq_self _ hhead, dropTrailingWs_eq_self _ hlast]

theorem pyStrip_idem (l : List Char) : pyStrip (pyStrip l) = pyStrip l := by
  unfold pyStrip
  rw [dropWhile_ws_eq_self (dropTrailingWs (l.dropWhile isPySpace)) ?hhead]
  · exact dropTrailingWs_eq_self _ (dropTrailingWs_last _)
  · intro c r hc
    exact pyStrip_head hc

/-! ## Normalizer theory: whitespace runs are invariant under the other stages -/

theorem noWsRun_dropWhile_ws (l : List Char) (h : noWsRun l = true) :
    noWsRun (l.dropWhile isPySpace) = true := by
  induction l with
  | nil => exact h
  | cons a t ih =>
    rw [List.dropWhile_cons]
    split
    · exact ih (noWsRun_of_cons h)
    · exact h

theorem noWsRun_dropTrailingWs (l : List Char) (h : noWsRun l = true) :
    noWsRun (dropTrailingWs l) = true := by
  induction l with
  | nil => exact h
  | cons a t ih =>
    simp only [dropTrailingWs]
    split
    · rfl
    · refine noWsRun_cons_of (ih (noWsRun_of_cons h)) ?_
      intro b bt hb
      obtain ⟨u, hu⟩ := dropTrailingWs_head hb
      subst hu
      simp only [noWsRun, Bool.and_eq_true, Bool.not_eq_true', Bool.and_eq_false_iff] at h
      rcases h.1 with h' | h'
      · exact .inl h'
      · exact .inr h'

theorem noWsRun_pyStrip (l : List Char) (h : noWsRun l = true) :
    noWsRun (pyStrip l) = true :=
  noWsRun_dropTrailingWs _ (noWsRun_dropWhile_ws l h)

theorem noWsRun_take (l : List Char) (h : noWsRun l = true) :
    ∀ n, noWsRun (l.take n) = true := by
  induction l with
  | nil => intro n; simp [noWsRun]
  | cons a t ih =>
    intro n
    cases n with
    | zero => rfl
    | succ n =>
      rw [List.take_succ_cons]
      refine noWsRun_cons_of (ih (noWsRun_of_cons h) n) ?_
      intro b bt hb
      cases t with
      | nil => simp at hb
      | cons c ct =>
        cases n with
        | zero => simp at hb
        | succ n =>
          rw [List.take_succ_cons] at hb
          injection hb with hb1 hb2
          subst hb1
          simp only [noWsRun, Bool.and_eq_true, Bool.not_eq_true',
            Bool.and_eq_false_iff] at h
          rcases h.1 with h' | h'
          · exact .inl h'
          · exact .inr h'

theorem noWsRun_of_all_non_ws (m : List Char) (hm : ∀ c ∈ m, isPySpace c = false) :
    noWsRun m = true := by
  induction m with
  | nil => rfl
  | cons a t ih =>
    refine noWsRun_cons_of (ih fun c hc => hm c (List.mem_cons_of_mem a hc)) ?_
    intro b bt hb
    exact .inl (hm a (List.mem_cons_self a t))

theorem noWsRun_append_non_ws (l m : List Char) (hl : noWsRun l = true)
    (hm : ∀ c ∈ m, isPySpace c = false) : noWsRun (l ++ m) = true := by
  induction l with
  | nil => exact noWsRun_of_all_non_ws m hm
  | cons a t ih =>
    rw [List.cons_append]
    refine noWsRun_cons_of (ih (noWsRun_of_cons hl)) ?_
    intro b bt hb
    cases t with
    | nil =>
      rw [List.nil_append] at hb
      refine .inr (hm b ?_)
      rw [hb]
      exact List.mem_cons_self b bt
    | cons c ct =>
      rw [List.cons_append] at hb
      injection hb with hb1 hb2
      subst hb1
      simp only [noWsRun, Bool.and_eq_true, Bool.not_eq_true',
        Bool.and_eq_false_iff] at hl
      rcases hl.1 with h' | h'
      · exact .inl h'
      · exact .inr h'

/-! ## Normalizer theory: the line filter on newline-free text -/

theorem splitNl_eq_single (l : List Char) (h : ∀ c ∈ l, ¬ c = '\n') :
    splitNl l = [l] := by
  induction l with
  | nil => rfl
  | cons a t ih =>
    have ha : ¬ a = '\n' := h a (List.mem_cons_self a t)
    have ht : splitNl t = [t] := ih fun c hc => h c (List.mem_cons_of_mem a hc)
    simp only [splitNl, if_neg ha, ht]

theorem no_nl_of_spacesPlain (l : List Char) (hp : spacesPlain l) :
    ∀ c ∈ l, ¬ c = '\n' := by
  intro c hc he
  subst he
  have := hp '\n' hc rfl
  simp at this

theorem lineFilter_single (l : List Char) (h : ∀ c ∈ l, ¬ c = '\n') :
    lineFilter l = if 20 < (pyStrip l).length then pyStrip l else [] := by
  unfold lineFilter
  rw [splitNl_eq_single l h]
  by_cases hc : 20 < (pyStrip l).length
  · rw [if_pos hc]
    simp [List.filter_cons, hc, joinSpace]
  · rw [if_neg hc]
    simp [List.filter_cons, hc, joinSpace]

/-! ## Normalizer theory: the shape of `clean_description` -/

theorem preClean_spacesPlain (s : String) : spacesPlain (preClean s) :=
  spacesPlain_dashSub _ (spacesPlain_bulletSub _ (spacesPlain_collapseWs s.data))

theorem preClean_noBullets (s : String) : noBullets (preClean s) :=
  noBullets_dashSub _ (noBullets_bulletSub _)

theorem clean_description_eq (s : String) (hs : ¬ s = "") :
    clean_description s =
      if 20 < (pyStrip (preClean s)).length
      then ⟨pyStrip (truncate2000 (pyStrip (preClean s)))⟩
      else "" := by
  have hnl : ∀ c ∈ preClean s, ¬ c = '\n' :=
    no_nl_of_spacesPlain _ (preClean_spacesPlain s)
  show (if s = "" then "" else
      ⟨pyStrip (truncate2000 (lineFilter (preClean s)))⟩) = _
  rw [if_neg hs, lineFilter_single _ hnl]
  split
  · rfl
  · rfl

theorem mem_take_subset {c : Char} :
    ∀ (l : List Char) (n : Nat), c ∈ l.take n → c ∈ l := by
  intro l
  induction l with
  | nil => intro n h; simp at h
  | cons a t ih =>
    intro n h
    cases n with
    | zero => simp at h
    | succ n =>
      rw [List.take_succ_cons] at h
      rcases List.mem_cons.mp h with h' | h'
      · exact h' ▸ List.mem_cons_self a t
      · exact List.mem_cons_of_mem a (ih n h')

theorem getLast?_append_right (l m : List Char) (hm : ¬ m = []) :
    (l ++ m).getLast? = m.getLast? :=
  List.getLast?_append_of_ne_nil l hm

theorem mem_truncate2000 {c : Char} (l : List Char) (h : c ∈ truncate2000 l) :
    c ∈ l ∨ c = '.' := by
  unfold truncate2000 at h
  split at h
  · rcases List.mem_append.mp h with h' | h'
    · exact .inl (mem_take_subset l 1997 h')
    · simp only [List.mem_cons, List.mem_singleton, List.not_mem_nil, or_false] at h'
      rcases h' with h'' | h'' | h'' <;> exact .inr h''
  · exact .inl h

theorem mk_ne_empty (l : List Char) (h : ¬ l = []) : ¬ (String.mk l = "") := by
  intro he
  exact h (congrArg String.data he)

/-- Cleaned text that is already fully normalized — single plain spaces,
no bullets, no dash pairs, stripped, length in `(20, 2000]` — is a fixed
point of `clean_description`. -/
theorem clean_description_fixed (l : List Char) (hp : spacesPlain l)
    (hr : noWsRun l = true) (hb : noBullets l) (hdp : hasDashPair l = false)
    (hstrip : pyStrip l = l) (hlen20 : 20 < l.length) (hlen2000 : ¬ 2000 < l.length) :
    clean_description ⟨l⟩ = ⟨l⟩ := by
  have hne : ¬ l = [] := by
    intro he
    rw [he] at hlen20
    simp at hlen20
  have hs : ¬ (String.mk l = "") := mk_ne_empty l hne
  rw [clean_description_eq _ hs]
  have hpre : preClean ⟨l⟩ = l := by
    show dashSub (bulletSub (collapseWs l)) = l
    rw [collapseWs_eq_self l hp hr, bulletSub_eq_self l hb, dashSub_eq_self l hdp]
  rw [hpre, hstrip, if_pos hlen20]
  show String.mk (pyStrip (truncate2000 l)) = _
  unfold truncate2000
  rw [if_neg hlen2000, hstrip]

set_option maxRecDepth 8000 in
/-- Counterexample for C5 as stated: the input's first line `"zq"` has
fewer than 20 characters, so per the claim it must be discarded; but
`clean_description` collapses the newline before the line filter runs, so
the output retains `"zq"` merged into the single remaining line. -/
theorem c5_counterexample :
    ("zq\nxxxxxxxxxxxxxxxxxxxxxxxxxxxxxx".data.takeWhile (fun c => c != '\n')).length
        < 20 ∧
      clean_description "zq\nxxxxxxxxxxxxxxxxxxxxxxxxxxxxxx" =
        "zq xxxxxxxxxxxxxxxxxxxxxxxxxxxxxx" :=
  ⟨by decide, by decide⟩

/-- C5 (amended): the normalizer's output is at most 2000 characters; the
line filter — running after newline collapse — never discards individual
short lines but maps the whole text to `""` exactly when the stripped
pre-filter text has at most 20 characters, and otherwise keeps it whole;
texts whose stripped form exceeds 2000 characters are truncated to their
first 1997 characters plus `"..."`; and the output contains no bullet
characters and no whitespace other than single plain spaces. -/
theorem c5_normalizer_amended (s : String) :
    (clean_description s).length ≤ 2000 ∧
      (¬ s = "" → (pyStrip (preClean s)).length ≤ 20 → clean_description s = "") ∧
      (¬ s = "" → 20 < (pyStrip (preClean s)).length →
        (clean_description s).data = pyStrip (truncate2000 (pyStrip (preClean s)))) ∧
      (¬ s = "" → 2000 < (pyStrip (preClean s)).length →
        (clean_description s).data =
          (pyStrip (preClean s)).take 1997 ++ ['.', '.', '.']) ∧
      (∀ c ∈ (clean_description s).data, isBullet c = false) ∧
      (∀ c ∈ (clean_description s).data, isPySpace c = true → c = ' ') := by
  have hmem : ∀ c ∈ (clean_description s).data, c ∈ preClean s ∨ c = '.' := by
    intro c hc
    by_cases hs : s = ""
    · subst hs
      simp [clean_description] at hc
    · rw [clean_description_eq s hs] at hc
      split at hc
      · have h1 := mem_pyStrip _ hc
        rcases mem_truncate2000 _ h1 with h2 | h2
        · exact .inl (mem_pyStrip _ h2)
        · exact .inr h2
      · simp at hc
  refine ⟨clean_description_length_le s, ?_, ?_, ?_, ?_, ?_⟩
  · intro hs hle
    rw [clean_description_eq s hs, if_neg (Nat.not_lt.mpr hle)]
  · intro hs hgt
    rw [clean_description_eq s hs, if_pos hgt]
  · intro hs hgt2000
    have hgt : 20 < (pyStrip (preClean s)).length := by omega
    rw [clean_description_eq s hs, if_pos hgt]
    show pyStrip (truncate2000 (pyStrip (preClean s))) = _
    unfold truncate2000
    rw [if_pos hgt2000]
    have hhead : ∀ c r, (pyStrip (preClean s)).take 1997 ++ ['.', '.', '.'] = c :: r →
        isPySpace c = false := by
      intro c r hcr
      cases hz0 : pyStrip (preClean s) with
      | nil =>
        rw [hz0] at hgt2000
        simp at hgt2000
      | cons c0 zt =>
        rw [hz0, List.take_succ_cons, List.cons_append] at hcr
        injection hcr with h1 _
        subst h1
        exact pyStrip_head hz0
    have hlast : ∀ c, ((pyStrip (preClean s)).take 1997 ++ ['.', '.', '.']).getLast? =
        some c → isPySpace c = false := by
      intro c h
      rw [getLast?_append_right _ _ (by simp)] at h
      have hdot : c = '.' := by
        have : (['.', '.', '.'] : List Char).getLast? = some '.' := rfl
        rw [this] at h
        injection h with h'
        exact h'.symm
      subst hdot
      rfl
    exact pyStrip_eq_self _ hhead hlast
  · intro c hc
    rcases hmem c hc with h | h
    · exact preClean_noBullets s c h
    · exact h ▸ rfl
  · intro c hc hws
    rcases hmem c hc with h | h
    · exact preClean_spacesPlain s c h hws
    · exact absurd (h ▸ hws) (by decide)

set_option maxRecDepth 20000 in
/-- Witness for C5 (amended): a 10-character text is wholly discarded (it
is one short line after collapapse), while a 30-character single-line text
is kept whole. -/
theorem c5_witness :
    ((¬ ("short text" : String) = "") ∧
        (pyStrip (preClean "short text")).length ≤ 20 ∧
        clean_description "short text" = "") ∧
      ((¬ ("xxxxxxxxxxxxxxxxxxxxxxxxxxxxxx" : String) = "") ∧
        20 < (pyStrip (preClean "xxxxxxxxxxxxxxxxxxxxxxxxxxxxxx")).length ∧
        (clean_description "xxxxxxxxxxxxxxxxxxxxxxxxxxxxxx").data =
          pyStrip (truncate2000 (pyStrip (preClean "xxxxxxxxxxxxxxxxxxxxxxxxxxxxxx")))) :=
  ⟨⟨by decide, by decide,
      (c5_normalizer_amended "short text").2.1 (by decide) (by decide)⟩,
    ⟨by decide, by decide,
      (c5_normalizer_amended "xxxxxxxxxxxxxxxxxxxxxxxxxxxxxx").2.2.1 (by decide)
        (by decide)⟩⟩

set_option maxRecDepth 8000 in
/-- Counterexample for C10 as stated: bullet substitution turns
`"… • • …"` into a double space, which only a second pass collapses, so
`clean_description` is not idempotent. -/
theorem c10_counterexample :
    ¬ (clean_description (clean_description
          "aaaaaaaaaaaaaaaaaaaaaaaaa • • bbbbbbbbbbbbbbbbbbbb") =
        clean_description "aaaaaaaaaaaaaaaaaaaaaaaaa • • bbbbbbbbbbbbbbbbbbbb") := by
  decide

/-- C10 (amended): `clean_description` is idempotent on every input that
contains no bullet characters and no two dashes separated only by
whitespace (the artifact substitutions are what can leave double spaces
behind for a second pass to collapse). -/
theorem c10_idempotent_without_artifacts (s : String)
    (hb : noBullets s.data) (hdp : hasDashPair s.data = false) :
    clean_description (clean_description s) = clean_description s := by
  by_cases hs : s = ""
  · subst hs
    rfl
  · have hbt : noBullets (collapseWs s.data) := by
      intro c hc
      rcases mem_collapseWsAux s.data false hc with h | h
      · exact hb c h
      · exact h ▸ rfl
    have hdt : hasDashPair (collapseWs s.data) = false := by
      rw [hasDashPair_collapseWs]
      exact hdp
    have hpre : preClean s = collapseWs s.data := by
      show dashSub (bulletSub (collapseWs s.data)) = collapseWs s.data
      rw [bulletSub_eq_self _ hbt, dashSub_eq_self _ hdt]
    have hpt : spacesPlain (collapseWs s.data) := spacesPlain_collapseWs s.data
    have hrt : noWsRun (collapseWs s.data) = true := noWsRun_collapseWs s.data
    set z := pyStrip (collapseWs s.data) with hzs
    have hpz : spacesPlain z := fun c hc hw => hpt c (mem_pyStrip _ hc) hw
    have hrz : noWsRun z = true := noWsRun_pyStrip _ hrt
    have hbz : noBullets z := fun c hc => hbt c (mem_pyStrip _ hc)
    have hdz : hasDashPair z = false := by
      rw [hzs]
      show hasDashPairAux false (dropTrailingWs ((collapseWs s.data).dropWhile isPySpace))
        = false
      refine hasDashPairAux_dropTrailingWs _ false ?_
      rw [hasDashPairAux_dropWhile_ws]
      exact hdt
    have hzz : pyStrip z = z := by
      rw [hzs]
      exact pyStrip_idem _
    rw [clean_description_eq s hs, hpre]
    by_cases h20 : 20 < z.length
    · rw [if_pos h20]
      by_cases h2000 : 2000 < z.length
      · have htr : truncate2000 z = z.take 1997 ++ ['.', '.', '.'] := by
          unfold truncate2000
          rw [if_pos h2000]
        have hdotsWs : ∀ c ∈ (['.', '.', '.'] : List Char), isPySpace c = false := by
          decide
        have hdotsDash : ∀ c ∈ (['.', '.', '.'] : List Char), ¬ c = '-' := by decide
        have hpw : spacesPlain (z.take 1997 ++ ['.', '.', '.']) := by
          intro c hc hw
          rcases List.mem_append.mp hc with h | h
          · exact hpz c (mem_take_subset z 1997 h) hw
          · exact absurd hw (by simpa using hdotsWs c h)
        have hbw : noBullets (z.take 1997 ++ ['.', '.', '.']) := by
          intro c hc
          rcases List.mem_append.mp hc with h | h
          · exact hbz c (mem_take_subset z 1997 h)
          · simp only [List.mem_cons, List.mem_singleton, List.not_mem_nil,
              or_false] at h
            rcases h with h | h | h <;> exact h ▸ rfl
        have hrw : noWsRun (z.take 1997 ++ ['.', '.', '.']) = true :=
          noWsRun_append_non_ws _ _ (noWsRun_take z hrz 1997) hdotsWs
        have hdw : hasDashPair (z.take 1997 ++ ['.', '.', '.']) = false :=
          hasDashPairAux_append _ _ false (hasDashPairAux_take z 1997 false hdz)
            hdotsDash
        have hstripw : pyStrip (z.take 1997 ++ ['.', '.', '.']) =
            z.take 1997 ++ ['.', '.', '.'] := by
          have hhead : ∀ c r, z.take 1997 ++ ['.', '.', '.'] = c :: r →
              isPySpace c = false := by
            intro c r hcr
            cases hz0 : z with
            | nil =>
              rw [hz0] at h2000
              simp at h2000
            | cons c0 zt =>
              rw [hz0, List.take_succ_cons, List.cons_append] at hcr
              injection hcr with h1 _
              subst h1
              exact pyStrip_head (hzs ▸ hz0)
          have hlast : ∀ c, (z.take 1997 ++ ['.', '.', '.']).getLast? = some c →
              isPySpace c = false := by
            intro c h
            rw [getLast?_append_right _ _ (by simp)] at h
            have hdot : c = '.' := by
              have he : (['.', '.', '.'] : List Char).getLast? = some '.' := rfl
              rw [he] at h
              injection h with h'
              exact h'.symm
            subst hdot
            rfl
          exact pyStrip_eq_self _ hhead hlast
        have hw20 : 20 < (z.take 1997 ++ ['.', '.', '.']).length := by
          simp only [List.length_append, List.length_take, List.length_cons,
            List.length_nil]
          omega
        have hw2000 : ¬ 2000 < (z.take 1997 ++ ['.', '.', '.']).length := by
          simp only [List.length_append, List.length_take, List.length_cons,
            List.length_nil]
          omega
        rw [htr, hstripw]
        exact clean_description_fixed _ hpw hrw hbw hdw hstripw hw20 hw2000
      · have htr : truncate2000 z = z := by
          unfold truncate2000
          rw [if_neg h2000]
        rw [htr, hzz]
        exact clean_description_fixed z hpz hrz hbz hdz hzz h20 h2000
    · rw [if_neg h20]
      rfl

set_option maxRecDepth 20000 in
/-- Witness for C10 (amended): a bullet-free, dash-pair-free sentence is a
fixed point of a second `clean_description` application. -/
theorem c10_witness :
    noBullets ("The speaker pairs over bluetooth and runs for ten hours.").data ∧
      hasDashPair ("The speaker pairs over bluetooth and runs for ten hours.").data
        = false ∧
      clean_description (clean_description
          "The speaker pairs over bluetooth and runs for ten hours.") =
        clean_description "The speaker pairs over bluetooth and runs for ten hours." :=
  ⟨by decide, by decide,
    c10_idempotent_without_artifacts _ (by decide) (by decide)⟩

end Primini
